import Mathlib

/-!
# fsd: periodic controller and snapshot publisher

A shallow embedding of `src/fsd/fsd.cpp` (`wrap360`, `fsd::fsd`, `fsd::dochecks`), of the
records of `src/fsd/client.h` and of `bearing_deg` of `src/fsd/geo.h`.

* C `int` and `time_t` values are `Int`, `unsigned int` is `Nat`.
* C `double` is IEEE-754 binary64: a finite value is an integer number of units of
  `2^-1074` (every finite binary64 value is such a multiple), and sums, products and
  quotients are rounded to nearest, ties to even, at 53 significant bits.
* A C string is a `String`; the conversion `%s` prints it up to its first NUL.
* The functions `sin`, `cos`, `sqrt` and `atan2` of the C library are parameters of
  `bearing_deg`.
* The intrusive lists rooted at `rootclient` and `rootserver` are Lean lists in link order;
  a pointer to a server is the address stored in the record.
* Helpers of the repository that are not part of the sources under study (`mtime`,
  `sprintgmt`, `heading_from_pbh`, the interval macros, the geomagnetic model) are
  parameters of the definitions that call them.
-/

set_option exponentiation.threshold 4096

namespace Fsd

/-! ## C `double` -/

/-- Units of `2^-1074` in `1.0`. -/
def UNIT : Nat := 2 ^ 1074

/-- Largest finite binary64 value, `(2^53 - 1) * 2^971`, in units of `2^-1074`. -/
def MAXFIN : Nat := (2 ^ 53 - 1) * 2 ^ 2045

/-- A binary64 value. `fin k` is the finite value `k * 2^-1074` (both zeros are `fin 0`,
which compare equal in C). -/
inductive Double where
  | fin (k : Int)
  | inf (neg : Bool)
  | nan
deriving DecidableEq

/-- Number of binary digits of `n`, by halving; `fuel` bounds the number of halvings. -/
def bitLen : Nat → Nat → Nat
  | 0, _ => 0
  | fuel + 1, n => if n = 0 then 0 else bitLen fuel (n / 2) + 1

/-- Round a magnitude to 53 significant bits, to nearest, ties to even. -/
def roundNat (K : Nat) : Nat :=
  let j := bitLen K K - 53
  let q := K / 2 ^ j
  let r := K % 2 ^ j
  if 2 * r < 2 ^ j then q * 2 ^ j
  else if 2 ^ j < 2 * r then (q + 1) * 2 ^ j
  else if q % 2 = 0 then q * 2 ^ j
  else (q + 1) * 2 ^ j

/-- The binary64 value nearest to the exact value `K * 2^-1074`; overflow gives infinity. -/
def roundInt (K : Int) : Double :=
  if MAXFIN < roundNat K.natAbs then Double.inf (decide (K < 0))
  else Double.fin (K.sign * (roundNat K.natAbs : Int))

namespace Double

/-- C `-x`. -/
def neg : Double → Double
  | fin k => fin (-k)
  | inf s => inf (!s)
  | nan => nan

/-- C `x + y` on doubles. -/
def add : Double → Double → Double
  | nan, _ => nan
  | _, nan => nan
  | inf a, inf b => if a = b then inf a else nan
  | inf a, fin _ => inf a
  | fin _, inf b => inf b
  | fin a, fin b => roundInt (a + b)

/-- C `x - y` on doubles. -/
def sub (x y : Double) : Double := add x (neg y)

/-- C `x < y` on doubles (false when either is NaN). -/
def lt : Double → Double → Bool
  | nan, _ => false
  | _, nan => false
  | fin a, fin b => decide (a < b)
  | fin _, inf s => !s
  | inf s, fin _ => s
  | inf a, inf b => a && !b

/-- C `x >= y` on doubles (false when either is NaN). -/
def ge : Double → Double → Bool
  | nan, _ => false
  | _, nan => false
  | fin a, fin b => decide (b ≤ a)
  | fin _, inf s => s
  | inf s, fin _ => !s
  | inf a, inf b => !a || b

/-- C `x == 0.0`. -/
def isZero : Double → Bool
  | fin k => decide (k = 0)
  | _ => false

/-- The value is finite and is one binary64 can hold. -/
def representable : Double → Prop
  | fin k => roundNat k.natAbs = k.natAbs ∧ k.natAbs ≤ MAXFIN
  | _ => False

end Double

/-- The literal `360.0`. -/
def d360 : Double := Double.fin (360 * (UNIT : Int))

/-- The literal `0.0`. -/
def d0 : Double := Double.fin 0

/-! ## `wrap360` (fsd.cpp, lines 73-78) -/

/-- The loop `while (x < 0.0) x += 360.0;`, at most `fuel` tests of the condition. -/
def wrapUp : Nat → Double → Option Double
  | 0, _ => none
  | fuel + 1, x => if x.lt d0 then wrapUp fuel (x.add d360) else some x

/-- The loop `while (x >= 360.0) x -= 360.0;`, at most `fuel` tests of the condition. -/
def wrapDown : Nat → Double → Option Double
  | 0, _ => none
  | fuel + 1, x => if x.ge d360 then wrapDown fuel (x.sub d360) else some x

/-- The function `wrap360`: `none` when a loop has not left within `fuel` tests. -/
def wrap360 (fuel : Nat) (x : Double) : Option Double :=
  (wrapUp fuel x).bind (wrapDown fuel)

/-! ## Records (client.h; class `server` as fsd.cpp uses it) -/

/-- `CLIENT_PILOT` of client.h. -/
def CLIENT_PILOT : Int := 1

/-- `CLIENT_ATC` of client.h. -/
def CLIENT_ATC : Int := 2

/-- Modelled from the spec: class `server` (server.h is not among the sources; spec 3.1
lists `ident`, `hostname`, `location`, `name`, `flags`, `alive`, `email`). `addr` is the
address of the object, which is what the pointer comparisons of `dochecks` compare. -/
structure Server where
  addr : Nat
  ident : String
  hostname : String
  location : String
  name : String
  email : String
  flags : Int
  alive : Int
deriving DecidableEq

/-- Class `flightplan` of client.h. -/
structure FlightPlan where
  callsign : String
  revision : Int
  type : Char
  aircraft : String
  tascruise : Int
  depairport : String
  deptime : Int
  actdeptime : Int
  alt : String
  destairport : String
  hrsenroute : Int
  minenroute : Int
  hrsfuel : Int
  minfuel : Int
  altairport : String
  remarks : String
  route : String
deriving DecidableEq

/-- Class `client` of client.h, without the list links `next` and `prev`. `plan` is the
nullable pointer to the flight plan, `location` the server object the pointer refers to.
The `char*` members are the texts they point to (null pointers are not modelled; the sizes
of the `sprintf` buffers of the roster are the condition `segmentsFit`). -/
structure Client where
  starttime : Int
  plan : Option FlightPlan
  type : Int
  rating : Int
  pbh : Nat
  flags : Int
  alive : Int
  cid : String
  callsign : String
  protocol : String
  realname : String
  sector : String
  identflag : String
  lat : Double
  lon : Double
  transponder : Int
  altitude : Int
  groundspeed : Int
  frequency : Int
  facilitytype : Int
  positionok : Int
  visualrange : Int
  simtype : Int
  location : Server
  prev_lat : Double
  prev_lon : Double
  heading : Double
  infolines : List String
  fpModed : Bool
deriving DecidableEq

/-! ## `dochecks`: timeout eviction (fsd.cpp, lines 396-418) -/

/-- Outcome of an eviction loop: the list as the loop leaves it and the objects it deleted,
both in link order. -/
structure Evicted (α : Type) where
  kept : List α
  destroyed : List α

/-- The loop over `rootserver` (lines 396-403): `next` is read before the test, and
`delete tempserver` unlinks the object. `myserver` is the address of the own entry. -/
def evictServers (SERVERTIMEOUT : Int) (myserver : Nat) (now : Int) :
    List Server → Evicted Server
  | [] => ⟨[], []⟩
  | tempserver :: next =>
    let r := evictServers SERVERTIMEOUT myserver now next
    if now - tempserver.alive > SERVERTIMEOUT ∧ tempserver.addr ≠ myserver then
      ⟨r.kept, tempserver :: r.destroyed⟩
    else ⟨tempserver :: r.kept, r.destroyed⟩

/-- Line 410: `int limit=(myserver->flags&SERVER_SILENT)?SILENTCLIENTTIMEOUT:CLIENTTIMEOUT;` -/
def clientLimit (SERVER_SILENT SILENTCLIENTTIMEOUT CLIENTTIMEOUT : Int) (myserver : Server) :
    Int :=
  if Int.land myserver.flags SERVER_SILENT ≠ 0 then SILENTCLIENTTIMEOUT else CLIENTTIMEOUT

/-- The loop over `rootclient` (lines 411-418) for a given `limit`. -/
def evictClientsLoop (limit : Int) (myserver : Server) (now : Int) :
    List Client → Evicted Client
  | [] => ⟨[], []⟩
  | tempclient :: next =>
    let r := evictClientsLoop limit myserver now next
    if tempclient.location.addr ≠ myserver.addr then
      if now - tempclient.alive > limit then ⟨r.kept, tempclient :: r.destroyed⟩
      else ⟨tempclient :: r.kept, r.destroyed⟩
    else ⟨tempclient :: r.kept, r.destroyed⟩

/-- Client timeout check of `dochecks` (lines 404-418). -/
def evictClients (SERVER_SILENT SILENTCLIENTTIMEOUT CLIENTTIMEOUT : Int) (myserver : Server)
    (now : Int) (clients : List Client) : Evicted Client :=
  evictClientsLoop (clientLimit SERVER_SILENT SILENTCLIENTTIMEOUT CLIENTTIMEOUT myserver)
    myserver now clients

/-! ## `dochecks`: the server-notify duty (fsd.cpp, lines 182 and 201-215) -/

/-- The part of the controller state the first two blocks of `dochecks` read and write:
`prevnotify`, the times at which `sendservernotify("*", myserver, NULL)` was called (latest
last) and the number of `writestatus()` calls. -/
structure NotifyState where
  prevnotify : Int
  notified : List Int
  statuswrites : Nat
deriving DecidableEq

/-- State the constructor leaves (line 182): `prevnotify = mtime()`. -/
def bootState (boot : Int) : NotifyState := ⟨boot, [], 0⟩

/-- Lines 201-215 of `dochecks`. `now` is the `mtime()` of line 201, `t1` the `time(NULL)`
of line 203 and `t2` the `time(NULL)` of line 206; `difftime` of two times is their
difference in seconds. -/
def notifyDuty (NOTIFYCHECK : Int) (now t1 t2 : Int) (st : NotifyState) : NotifyState :=
  let st1 : NotifyState :=
    if t1 - st.prevnotify ≤ 5 then
      { st with prevnotify := t2, statuswrites := st.statuswrites + 1 }
    else st
  if now - st1.prevnotify > NOTIFYCHECK then
    { st1 with prevnotify := now, notified := st1.notified ++ [now] }
  else st1

/-- A run of `n` calls of `dochecks`, one per second after boot: the call of second
`boot + i` reads that second from every clock. -/
def runTicks (NOTIFYCHECK boot : Int) : Nat → NotifyState
  | 0 => bootState boot
  | n + 1 =>
    notifyDuty NOTIFYCHECK (boot + (n + 1 : Nat)) (boot + (n + 1 : Nat)) (boot + (n + 1 : Nat))
      (runTicks NOTIFYCHECK boot n)

/-! ## `printf` conversions -/

/-- Decimal digits of `n`, most significant first; `fuel` bounds the number of digits. -/
def decDigits : Nat → Nat → List Char
  | 0, _ => []
  | fuel + 1, n =>
    if n < 10 then [Nat.digitChar n] else decDigits fuel (n / 10) ++ [Nat.digitChar (n % 10)]

/-- Decimal text of a natural number. -/
def natDec (n : Nat) : String := String.mk (decDigits (n + 1) n)

/-- Sign that `%d` and `%f` print. -/
def signText (negative : Bool) : String := if negative then "-" else ""

/-- Conversion `%d`. -/
def fmtD (n : Int) : String := signText (decide (n < 0)) ++ natDec n.natAbs

/-- Conversions `%02d`, `%03d` (`%0wd`): zeros between the sign and the digits up to the
width `w`. -/
def fmtD0 (w : Nat) (n : Int) : String :=
  signText (decide (n < 0)) ++
    String.mk (List.replicate (w - (signText (decide (n < 0))).length - (natDec n.natAbs).length) '0') ++
    natDec n.natAbs

/-- Nearest integer to `a / d`, ties to even. -/
def divRoundEven (a d : Nat) : Nat :=
  if 2 * (a % d) < d then a / d
  else if d < 2 * (a % d) then a / d + 1
  else if (a / d) % 2 = 0 then a / d
  else a / d + 1

/-- Conversion `%f`: six decimals of the exact binary value, rounded to nearest (the sign
of a NaN is not modelled). -/
def fmtF : Double → String
  | Double.nan => "nan"
  | Double.inf s => signText s ++ "inf"
  | Double.fin k =>
    signText (decide (k < 0)) ++ natDec (divRoundEven (k.natAbs * 10 ^ 6) UNIT / 10 ^ 6) ++ "." ++
      fmtD0 6 (divRoundEven (k.natAbs * 10 ^ 6) UNIT % 10 ^ 6)

/-! ## `dochecks`: the roster lines (fsd.cpp, lines 277-309)

Each segment is the text its `sprintf` call formats. Line 300 prints the segment buffers
with `%s`, which stops at the first NUL of a buffer. A segment that does not fit its buffer
overflows it, which C leaves undefined: `segmentsFit` is the condition under which the
texts below are what the code writes. -/

/-- Conversion `%s`: the characters of a C string, which ends at its first NUL. -/
def fmtS (s : String) : String := String.mk (s.data.takeWhile (fun c => c != '\x00'))

/-- Line 280: `"%s:%s:%s:%s"` into `char dataseg1[150]`. -/
def dataseg1 (c : Client) : String :=
  fmtS c.callsign ++ ":" ++ fmtS c.cid ++ ":" ++ fmtS c.realname ++ ":" ++
    (if c.type = CLIENT_ATC then "ATC" else "PILOT")

/-- Lines 281-284: `"1%02d.%03d"` of `frequency/1000` and `frequency%1000` (C division,
truncating), or the empty text, into `char dataseg2[150]`. -/
def dataseg2 (frequency : Int) : String :=
  if frequency ≠ 0 ∧ frequency < 100000 then
    "1" ++ fmtD0 2 (frequency.tdiv 1000) ++ "." ++ fmtD0 3 (frequency.tmod 1000)
  else ""

/-- Lines 286-289: `"%f:%f:%d:%d"` or `":::"`, into `char dataseg3[150]`. -/
def dataseg3 (c : Client) : String :=
  if c.lat.isZero = false ∧ c.altitude < 100000 ∧ c.lon.isZero = false then
    fmtF c.lat ++ ":" ++ fmtF c.lon ++ ":" ++ fmtD c.altitude ++ ":" ++ fmtD c.groundspeed
  else ":::"

/-- Lines 290-293: `"%s:%d:%s:%s:%s"` or `"::::"`, into `char dataseg4[150]`. -/
def dataseg4 (plan : Option FlightPlan) : String :=
  match plan with
  | some p =>
    fmtS p.aircraft ++ ":" ++ fmtD p.tascruise ++ ":" ++ fmtS p.depairport ++ ":" ++
      fmtS p.alt ++ ":" ++ fmtS p.destairport
  | none => "::::"

/-- Line 294: `"%s:%s:%d:%d:%d:%d"` into `char dataseg5[150]`. -/
def dataseg5 (c : Client) : String :=
  fmtS c.location.ident ++ ":" ++ fmtS c.protocol ++ ":" ++ fmtD c.rating ++ ":" ++
    fmtD c.transponder ++ ":" ++ fmtD c.facilitytype ++ ":" ++ fmtD c.visualrange

/-- Lines 295-298: `"%d:%c:%d:%d:%d:%d:%d:%d:%s:%s:%s"` or `"::::::::::"`, into
`char dataseg6[2000]`. The conversion `%c` writes the character `type` whatever it is, a
NUL included. -/
def dataseg6 (plan : Option FlightPlan) : String :=
  match plan with
  | some p =>
    fmtD p.revision ++ ":" ++ String.singleton p.type ++ ":" ++ fmtD p.deptime ++ ":" ++
      fmtD p.actdeptime ++ ":" ++ fmtD p.hrsenroute ++ ":" ++ fmtD p.minenroute ++ ":" ++
      fmtD p.hrsfuel ++ ":" ++ fmtD p.minfuel ++ ":" ++ fmtS p.altairport ++ ":" ++
      fmtS p.remarks ++ ":" ++ fmtS p.route
  | none => "::::::::::"

/-- Line 299: `"::::::%s"` of `sprintgmt(starttime)`, into `char dataseg7[50]`. -/
def dataseg7 (sprintgmt : Int → String) (c : Client) : String :=
  "::::::" ++ fmtS (sprintgmt c.starttime)

/-- Every segment of the client, with its terminating NUL, fits the buffer that lines
277-299 format it into (150 bytes, 2000 for segment 6, 50 for segment 7). -/
def segmentsFit (sprintgmt : Int → String) (c : Client) : Bool :=
  decide ((dataseg1 c).utf8ByteSize < 150) && decide ((dataseg2 c.frequency).utf8ByteSize < 150) &&
  decide ((dataseg3 c).utf8ByteSize < 150) && decide ((dataseg4 c.plan).utf8ByteSize < 150) &&
  decide ((dataseg5 c).utf8ByteSize < 150) && decide ((dataseg6 c.plan).utf8ByteSize < 2000) &&
  decide ((dataseg7 sprintgmt c).utf8ByteSize < 50)

/-- Line 300: the `!CLIENTS` line of one client, `"%s:%s:%s:%s:%s:%s:%s\n"` of the seven
segment buffers (for a client whose segments fit, see `segmentsFit`). -/
def clientLine (sprintgmt : Int → String) (c : Client) : String :=
  fmtS (dataseg1 c) ++ ":" ++ fmtS (dataseg2 c.frequency) ++ ":" ++ fmtS (dataseg3 c) ++ ":" ++
    fmtS (dataseg4 c.plan) ++ ":" ++ fmtS (dataseg5 c) ++ ":" ++ fmtS (dataseg6 c.plan) ++ ":" ++
    fmtS (dataseg7 sprintgmt c) ++ "\n"

/-- Lines 278-301: the loop over `rootclient` writes one line per client. -/
def clientLines (sprintgmt : Int → String) : List Client → List String
  | [] => []
  | tempclient :: next => clientLine sprintgmt tempclient :: clientLines sprintgmt next

/-- Lines 304-309: the `!SERVERS` lines, `"%s:%s:%s:%s:%d"` into `char dataline[150]` and
then `"%s\n"`; entries with hostname `"n/a"` are skipped. -/
def serverLines (SERVER_SILENT : Int) : List Server → List String
  | [] => []
  | tempserver :: next =>
    if fmtS tempserver.hostname ≠ "n/a" then
      (fmtS (fmtS tempserver.ident ++ ":" ++ fmtS tempserver.hostname ++ ":" ++
        fmtS tempserver.location ++ ":" ++ fmtS tempserver.name ++ ":" ++
        fmtD (if Int.land tempserver.flags SERVER_SILENT ≠ 0 then 0 else 1)) ++ "\n") ::
        serverLines SERVER_SILENT next
    else serverLines SERVER_SILENT next

/-- Lines 260-309: the texts the `fprintf` calls write to the temp file, in order. -/
def rosterWrites (sprintgmt sprintgmtdate : Int → String) (SERVER_SILENT : Int) (now : Int)
    (clients : List Client) (servers : List Server) : List String :=
  ["![DateStamp]" ++ fmtS (sprintgmtdate now) ++ "\n",
   "!GENERAL\n",
   "VERSION = " ++ fmtD 1 ++ "\n",
   "RELOAD = " ++ fmtD 1 ++ "\n",
   "UPDATE = " ++ fmtS (sprintgmt now) ++ "\n",
   "CONNECTED CLIENTS = " ++ fmtD clients.length ++ "\n",
   "CONNECTED SERVERS = " ++ fmtD servers.length ++ "\n",
   "!CLIENTS\n"] ++
  clientLines sprintgmt clients ++ ["!SERVERS\n"] ++ serverLines SERVER_SILENT servers

/-! ## The fields of a roster line

Auxiliary definitions for stating what a `!CLIENTS` line determines. -/

/-- Value of a list of decimal digits. -/
def digitsVal (l : List Char) : Nat := l.foldl (fun a c => 10 * a + (c.toNat - 48)) 0

/-- Join fields, each followed by a colon, in front of the rest of the line. -/
def joinFields (fs : List (List Char)) (rest : List Char) : List Char :=
  fs.foldr (fun f acc => f ++ ':' :: acc) rest

/-- The four position fields of a `!CLIENTS` line (segment 3 between its colons). -/
def posFields (c : Client) : List (List Char) :=
  if c.lat.isZero = false ∧ c.altitude < 100000 ∧ c.lon.isZero = false then
    [(fmtF c.lat).data, (fmtF c.lon).data, (fmtD c.altitude).data, (fmtD c.groundspeed).data]
  else [[], [], [], []]

/-- The five flight-plan fields of segment 4. -/
def planFields4 : Option FlightPlan → List (List Char)
  | some p =>
    [p.aircraft.data, (fmtD p.tascruise).data, p.depairport.data, p.alt.data, p.destairport.data]
  | none => [[], [], [], [], []]

/-- The eleven flight-plan fields of segment 6. -/
def planFields6 : Option FlightPlan → List (List Char)
  | some p =>
    [(fmtD p.revision).data, [p.type], (fmtD p.deptime).data, (fmtD p.actdeptime).data,
     (fmtD p.hrsenroute).data, (fmtD p.minenroute).data, (fmtD p.hrsfuel).data,
     (fmtD p.minfuel).data, p.altairport.data, p.remarks.data, p.route.data]
  | none => [[], [], [], [], [], [], [], [], [], [], []]

/-- The 37 fields of a `!CLIENTS` line that a colon follows, in order. -/
def clientFields (c : Client) : List (List Char) :=
  [c.callsign.data, c.cid.data, c.realname.data,
   (if c.type = CLIENT_ATC then "ATC" else "PILOT").data, (dataseg2 c.frequency).data] ++
  posFields c ++ planFields4 c.plan ++
  [c.location.ident.data, c.protocol.data, (fmtD c.rating).data, (fmtD c.transponder).data,
   (fmtD c.facilitytype).data, (fmtD c.visualrange).data] ++
  planFields6 c.plan ++ [[], [], [], [], [], []]

/-- The texts of a client record that the roster prints with `%s` or `%c`. -/
def printedTexts (c : Client) : List (List Char) :=
  [c.callsign.data, c.cid.data, c.realname.data, c.location.ident.data, c.protocol.data] ++
  match c.plan with
  | some p =>
    [p.aircraft.data, p.depairport.data, p.alt.data, p.destairport.data, [p.type],
     p.altairport.data, p.remarks.data, p.route.data]
  | none => []

/-! ## `dochecks`: the pilot JSON snapshot (fsd.cpp, lines 324-364) -/

/-- One element of the `clients` array of `pilot_snapshot.json` (lines 334-358). -/
structure PilotJson where
  callsign : String
  lat : Double
  lon : Double
  alt : Int
  gs : Int
  pbh : Nat
  hdg_tru : Double
  decl_deg : Double
  hdg_mag : Double
deriving DecidableEq

/-- Lines 334-358: the entry of a client that passed the tests. `declination_deg` gives
`none` when the model lookup throws (the handler of line 351 then stores `0.0`); the result
is `none` when `wrap360` has not returned within `fuel` loop tests. -/
def pilotEntry (heading_from_pbh : Nat → Double)
    (declination_deg : Double → Double → Double → Option Double) (fuel : Nat) (c : Client) :
    Option PilotJson :=
  let hdg_tru := heading_from_pbh c.pbh
  let decl := (declination_deg c.lat c.lon d0).getD d0
  match wrap360 fuel (hdg_tru.sub decl) with
  | none => none
  | some hdg_mag =>
    some ⟨c.callsign, c.lat, c.lon, c.altitude, c.groundspeed, c.pbh, hdg_tru, decl, hdg_mag⟩

/-- Lines 326-362: the loop that fills the `clients` array, `acc` being the array so far. -/
def pilotLoop (heading_from_pbh : Nat → Double)
    (declination_deg : Double → Double → Double → Option Double) (fuel : Nat) :
    List Client → List PilotJson → Option (List PilotJson)
  | [], acc => some acc
  | c :: next, acc =>
    if c.type ≠ CLIENT_PILOT then pilotLoop heading_from_pbh declination_deg fuel next acc
    else if c.lat.isZero || c.lon.isZero then
      pilotLoop heading_from_pbh declination_deg fuel next acc
    else if c.altitude ≥ 100000 then pilotLoop heading_from_pbh declination_deg fuel next acc
    else
      match pilotEntry heading_from_pbh declination_deg fuel c with
      | none => none
      | some j => pilotLoop heading_from_pbh declination_deg fuel next (acc ++ [j])

/-- The `clients` array of the snapshot for the registry `clients`. -/
def pilotSnapshot (heading_from_pbh : Nat → Double)
    (declination_deg : Double → Double → Double → Option Double) (fuel : Nat)
    (clients : List Client) : Option (List PilotJson) :=
  pilotLoop heading_from_pbh declination_deg fuel clients []

/-- The fields of a snapshot entry that are copied from the client record. -/
def PilotJson.copied (j : PilotJson) : String × Double × Double × Int × Int × Nat :=
  (j.callsign, j.lat, j.lon, j.alt, j.gs, j.pbh)

/-- The same fields read from the client record. -/
def Client.copied (c : Client) : String × Double × Double × Int × Int × Nat :=
  (c.callsign, c.lat, c.lon, c.altitude, c.groundspeed, c.pbh)

/-! ## `dochecks`: publishing the roster file (fsd.cpp, lines 249-312 and 388-391) -/

/-- The files that exist, as pairs of path and content; a path occurs at most once. -/
abbrev FileSys := List (String × String)

/-- Content of the file at `path`, `none` when there is no such file. -/
def FileSys.read (fs : FileSys) (path : String) : Option String :=
  match fs with
  | [] => none
  | (p, content) :: rest => if p = path then some content else FileSys.read rest path

/-- The file system without the file at `path`. -/
def FileSys.remove (fs : FileSys) (path : String) : FileSys :=
  fs.filter (fun e => decide (e.1 ≠ path))

/-- The file system with `content` at `path`, replacing what was there. -/
def FileSys.write (fs : FileSys) (path content : String) : FileSys :=
  (path, content) :: FileSys.remove fs path

/-- What the operating system does to the calls of one publish step: whether `fopen`
fails, how many `fprintf` calls succeed before the first that fails (that one and the
later ones write nothing), whether `remove` and `rename` fail. -/
structure Faults where
  fopenFails : Bool
  goodWrites : Nat
  removeFails : Bool
  renameFails : Bool

/-- The state the publish step reads and writes. -/
structure PublishState where
  fs : FileSys
  fileopen : Int

/-- The `fprintf` calls of lines 260-309 on the open temp file: each appends its text until
the first one fails; the return values are not looked at. -/
def writeAll : Nat → List String → String → String
  | _, [], content => content
  | 0, _ :: _, content => content
  | good + 1, text :: rest, content => writeAll good rest (content ++ text)

/-- Lines 249-312 and 388-391 for the roster file, the step `dochecks` takes when the
snapshot duty is due and the `whazzup` entry is configured: open `<whazzup>.tmp` for
writing, write, close, `remove(whazzupfile)`, `rename(whazzuptemp, whazzupfile)`. The pilot
snapshot of lines 313-386 is written to other paths and is left out here. -/
def publishRoster (faults : Faults) (whazzupfile : String) (writes : List String)
    (st : PublishState) : PublishState :=
  let whazzuptemp := whazzupfile ++ ".tmp"
  if st.fileopen = 0 then
    if faults.fopenFails then { st with fileopen := 0 }
    else
      let opened := FileSys.write st.fs whazzuptemp ""
      let closed := FileSys.write opened whazzuptemp (writeAll faults.goodWrites writes "")
      let removed := if faults.removeFails then closed else FileSys.remove closed whazzupfile
      let renamed :=
        if faults.renameFails then removed
        else
          match FileSys.read removed whazzuptemp with
          | some content =>
            FileSys.write (FileSys.remove removed whazzuptemp) whazzupfile content
          | none => removed
      { fs := renamed, fileopen := 0 }
  else st

/-! ## `geo.h`

The arithmetic of `bearing_deg` on binary64 values, every operation rounded on its own (no
contraction of a product and a sum into a fused multiply-add). The functions `sin`, `cos`,
`sqrt` and `atan2` of the C library are parameters. The model has one zero: where a library
function tells `+0` from `-0`, each choice is a function the parameter can stand for. -/

/-- The binary64 magnitude nearest to `N / D` units (`D > 0`), ties to even. -/
def roundRat (N D : Nat) : Nat :=
  let j := bitLen (N / D) (N / D) - 53
  divRoundEven N (D * 2 ^ j) * 2 ^ j

/-- The binary64 value nearest to `N / D` units with the given sign; overflow gives
infinity. -/
def signedRound (negative : Bool) (N D : Nat) : Double :=
  if MAXFIN < roundRat N D then Double.inf negative
  else Double.fin (if negative then -(roundRat N D : Int) else (roundRat N D : Int))

namespace Double

/-- C `x * y` on doubles. -/
def mul : Double → Double → Double
  | nan, _ => nan
  | _, nan => nan
  | inf a, inf b => inf (a != b)
  | inf a, fin k => if k = 0 then nan else inf (a != decide (k < 0))
  | fin k, inf b => if k = 0 then nan else inf (decide (k < 0) != b)
  | fin a, fin b =>
    signedRound (decide (a < 0) != decide (b < 0)) (a.natAbs * b.natAbs) UNIT

/-- C `x / y` on doubles (a zero divisor counts as `+0`). -/
def div : Double → Double → Double
  | nan, _ => nan
  | _, nan => nan
  | inf _, inf _ => nan
  | inf a, fin k => inf (a != decide (k < 0))
  | fin _, inf _ => fin 0
  | fin a, fin b =>
    if b = 0 then (if a = 0 then nan else inf (decide (a < 0)))
    else signedRound (decide (a < 0) != decide (b < 0)) (a.natAbs * UNIT) b.natAbs

/-- The test `std::isfinite`. -/
def isfinite : Double → Bool
  | fin _ => true
  | _ => false

end Double

/-- C `fmod(x, y)`: the exact remainder of the truncating division, with the sign of `x`. -/
def fmod : Double → Double → Double
  | Double.nan, _ => Double.nan
  | _, Double.nan => Double.nan
  | Double.inf _, _ => Double.nan
  | Double.fin a, Double.inf _ => Double.fin a
  | Double.fin a, Double.fin b => if b = 0 then Double.nan else Double.fin (a.tmod b)

/-- C `lround(x)`: the nearest integer, halfway cases away from zero. For a NaN, an infinity
and a value outside `long` the result is unspecified; `unspecified` stands for it. -/
def lround (unspecified : Int) : Double → Int
  | Double.fin k =>
    if k.sign * (((2 * k.natAbs + UNIT) / (2 * UNIT) : Nat) : Int) < -(2 ^ 63) ∨
        2 ^ 63 ≤ k.sign * (((2 * k.natAbs + UNIT) / (2 * UNIT) : Nat) : Int) then unspecified
    else k.sign * (((2 * k.natAbs + UNIT) / (2 * UNIT) : Nat) : Int)
  | _ => unspecified

/-- The conversion `static_cast<int>` of a `long`: the value modulo `2^32`. -/
def toInt (n : Int) : Int := (n + 2 ^ 31) % 2 ^ 32 - 2 ^ 31

/-- The constant `M_PI`, `0x400921FB54442D18`. -/
def M_PI : Double := Double.fin (884279719003555 * 2 ^ 1026)

/-- The literal `180.0`. -/
def d180 : Double := Double.fin (180 * (UNIT : Int))

/-- The literal `1` as a double. -/
def d1 : Double := Double.fin (UNIT : Int)

/-- The literal `2` as a double. -/
def d2 : Double := Double.fin (2 * (UNIT : Int))

/-- Line 10: `deg * (M_PI / 180.0)`. -/
def deg2rad (deg : Double) : Double := deg.mul (M_PI.div d180)

/-- Line 11: `rad * (180.0 / M_PI)`. -/
def rad2deg (rad : Double) : Double := rad.mul (d180.div M_PI)

/-- Lines 5-8. -/
structure BearingResult where
  heading_deg : Int
  distance_m : Double
deriving DecidableEq

/-- Lines 14-48: `none` is `std::nullopt`. -/
def bearing_deg (sin cos sqrt : Double → Double) (atan2 : Double → Double → Double)
    (unspecified : Int) (lat1 lon1 lat2 lon2 : Double) : Option BearingResult :=
  if !lat1.isfinite || !lon1.isfinite || !lat2.isfinite || !lon2.isfinite then none
  else
    let φ1 := deg2rad lat1
    let φ2 := deg2rad lat2
    let Δl := deg2rad (lon2.sub lon1)
    let y := (sin Δl).mul (cos φ2)
    let x := ((cos φ1).mul (sin φ2)).sub (((sin φ1).mul (cos φ2)).mul (cos Δl))
    if x.isZero && y.isZero then none
    else
      let θ := atan2 y x
      let brng := fmod ((rad2deg θ).add d360) d360
      let hdg := (toInt (lround unspecified brng)).tmod 360
      let R := Double.fin (6371000 * (UNIT : Int))
      let dφ := deg2rad (lat2.sub lat1)
      let dl := deg2rad (lon2.sub lon1)
      let a := ((sin (dφ.div d2)).mul (sin (dφ.div d2))).add
        ((((cos φ1).mul (cos φ2)).mul (sin (dl.div d2))).mul (sin (dl.div d2)))
      let c := d2.mul (atan2 (sqrt a) (sqrt (d1.sub a)))
      let dist := R.mul c
      some ⟨hdg, dist⟩

/-! ## Sample registry -/

/-- The own server entry of the samples. -/
def sampleMyserver : Server := ⟨1, "LOCAL", "localhost", "EU", "me", "", 0, 1000⟩

/-- The own server entry with flag bit 2 set. -/
def sampleSilentMyserver : Server := ⟨1, "LOCAL", "localhost", "EU", "me", "", 2, 1000⟩

/-- A peer server, last heard at second 1000. -/
def samplePeer : Server := ⟨2, "PEER", "peer.example.org", "US", "peer", "", 0, 1000⟩

/-- A pilot at 50N 8E, 35000 ft, 450 kt, connected through the peer. -/
def samplePilot : Client :=
  { starttime := 900, plan := none, type := CLIENT_PILOT, rating := 1, pbh := 0, flags := 0,
    alive := 1000, cid := "1001", callsign := "DLH123", protocol := "9", realname := "Pilot",
    sector := "", identflag := "", lat := Double.fin (50 * (UNIT : Int)),
    lon := Double.fin (8 * (UNIT : Int)), transponder := 1200, altitude := 35000,
    groundspeed := 450, frequency := 0, facilitytype := 0, positionok := 1, visualrange := 40,
    simtype := 0, location := samplePeer, prev_lat := d0, prev_lon := d0, heading := d0,
    infolines := [], fpModed := false }

/-- A controller on frequency 120.500, connected through the peer. -/
def sampleAtc : Client :=
  { samplePilot with type := CLIENT_ATC, callsign := "EDDF_TWR", cid := "1002",
                     realname := "Tower", frequency := 20500, facilitytype := 4 }

/-- A stand-in for `heading_from_pbh`: every word decodes to 90 degrees. -/
def sampleHeading : Nat → Double := fun _ => Double.fin (90 * (UNIT : Int))

/-- A stand-in for the geomagnetic model: 2 degrees east everywhere. -/
def sampleDeclination : Double → Double → Double → Option Double :=
  fun _ _ _ => some (Double.fin (2 * (UNIT : Int)))

/-- The controller of the samples, heard later and with another `pbh`. -/
def sampleAtcLater : Client := { sampleAtc with alive := 1500, pbh := 7 }

/-- The controller of the samples with frequency 0. -/
def sampleAtcFreq0 : Client := { sampleAtc with frequency := 0 }

/-- The controller of the samples with frequency 100000. -/
def sampleAtcFreq100000 : Client := { sampleAtc with frequency := 100000 }

/-- A flight plan whose `type` is the NUL character, filed for the departure time
`deptime`. -/
def samplePlanNul (deptime : Int) : FlightPlan :=
  { callsign := "EDDF_TWR", revision := 3, type := '\x00', aircraft := "B738",
    tascruise := 450, depairport := "EDDF", deptime := deptime, actdeptime := 0,
    alt := "35000", destairport := "EDDM", hrsenroute := 1, minenroute := 0, hrsfuel := 2,
    minfuel := 30, altairport := "EDDS", remarks := "none", route := "DCT" }

/-- The controller of the samples with the flight plan `samplePlanNul deptime`. -/
def sampleAtcPlanNul (deptime : Int) : Client :=
  { sampleAtc with plan := some (samplePlanNul deptime) }

/-- A stand-in for `sin`: 0 at 0, one half at the other finite values, NaN elsewhere. -/
def sampleSin : Double → Double
  | Double.fin k => if k = 0 then d0 else Double.fin (2 ^ 1073)
  | _ => Double.nan

/-- A stand-in for `cos`: 1 at 0, one half at the other finite values, NaN elsewhere. -/
def sampleCos : Double → Double
  | Double.fin k => if k = 0 then d1 else Double.fin (2 ^ 1073)
  | _ => Double.nan

/-- A stand-in for `atan2`: one half at finite values, NaN elsewhere. -/
def sampleAtan2 : Double → Double → Double
  | Double.fin _, Double.fin _ => Double.fin (2 ^ 1073)
  | _, _ => Double.nan

/-- A stand-in for `sqrt`. -/
def sampleSqrt : Double → Double := fun x => x

/-! # Theorems -/

/-! ## Rounding and `wrap360` -/

/-- A number below `2^e` has at most `e` binary digits. -/
theorem bitLen_le (fuel : Nat) : ∀ (n e : Nat), n < 2 ^ e → bitLen fuel n ≤ e := by
  induction fuel with
  | zero => intro n e _; simp [bitLen]
  | succ fuel ih =>
    intro n e h
    rw [bitLen]
    split
    · exact Nat.zero_le _
    · rename_i hn
      cases e with
      | zero => simp at h; exact absurd h hn
      | succ e =>
        have : n / 2 < 2 ^ e := by
          rw [pow_succ] at h
          omega
        have := ih (n / 2) e this
        omega

/-- Rounding moves a magnitude by at most half of the unit in which it is rounded. -/
theorem roundNat_error (K : Nat) :
    2 * (roundNat K - K) ≤ 2 ^ (bitLen K K - 53) ∧ 2 * (K - roundNat K) ≤ 2 ^ (bitLen K K - 53) := by
  have hpos : 0 < 2 ^ (bitLen K K - 53) := Nat.pos_pow_of_pos _ (by decide)
  have hdm := Nat.div_add_mod K (2 ^ (bitLen K K - 53))
  have hlt := Nat.mod_lt K hpos
  unfold roundNat
  simp only
  generalize 2 ^ (bitLen K K - 53) = p at *
  generalize hq : K / p = q at *
  generalize hr : K % p = r at *
  have e1 : q * p = p * q := Nat.mul_comm _ _
  have e2 : (q + 1) * p = p * q + p := by ring
  split
  · rw [e1]; omega
  · split
    · rw [e2]; omega
    · split
      · rw [e1]; omega
      · rw [e2]; omega

/-- Rounding does not pass a bound that is a multiple of the rounding unit. -/
theorem roundNat_le (K B : Nat) (hdvd : 2 ^ (bitLen K K - 53) ∣ B) (h : K ≤ B) :
    roundNat K ≤ B := by
  have hpos : 0 < 2 ^ (bitLen K K - 53) := Nat.pos_pow_of_pos _ (by decide)
  have hdm := Nat.div_add_mod K (2 ^ (bitLen K K - 53))
  have hlt := Nat.mod_lt K hpos
  obtain ⟨c, hc⟩ := hdvd
  unfold roundNat
  simp only
  generalize 2 ^ (bitLen K K - 53) = p at *
  generalize hq : K / p = q at *
  generalize hr : K % p = r at *
  subst hc
  have e1 : q * p = p * q := Nat.mul_comm _ _
  have e2 : (q + 1) * p = p * q + p := by ring
  have hqc : q ≤ c := by
    by_contra hcon
    have : c + 1 ≤ q := by omega
    have : p * (c + 1) ≤ p * q := Nat.mul_le_mul_left p this
    have e3 : p * (c + 1) = p * c + p := by ring
    omega
  rcases Nat.lt_or_ge q c with hlt' | hge
  · have : p * (q + 1) ≤ p * c := Nat.mul_le_mul_left p hlt'
    have e3 : p * (q + 1) = p * q + p := by ring
    split
    · rw [e1]; omega
    · split
      · rw [e2]; omega
      · split
        · rw [e1]; omega
        · rw [e2]; omega
  · have hqeq : q = c := by omega
    subst hqeq
    have hr0 : r = 0 := by omega
    subst hr0
    rw [if_pos (by omega), e1]

/-- The value 360 is below `2^9`. -/
theorem d360_lt_pow : 360 * UNIT < 2 ^ 1083 := by decide!
/-- The value 360 is finite. -/
theorem d360_le_maxfin : 360 * UNIT ≤ MAXFIN := by decide!
/-- The value 360 is a multiple of the rounding unit of values between 256 and 512. -/
theorem pow_1030_dvd_d360 : 2 ^ 1030 ∣ 360 * UNIT := ⟨45 * 2 ^ 47, by decide!⟩

/-- A magnitude that is a multiple of its rounding unit is not changed by rounding. -/
theorem roundNat_of_dvd (K : Nat) (h : 2 ^ (bitLen K K - 53) ∣ K) : roundNat K = K := by
  have hpos : 0 < 2 ^ (bitLen K K - 53) := Nat.pos_pow_of_pos _ (by decide)
  have hr : K % 2 ^ (bitLen K K - 53) = 0 := Nat.mod_eq_zero_of_dvd h
  unfold roundNat
  simp only [hr, Nat.mul_zero]
  rw [if_pos hpos]
  exact Nat.div_mul_cancel h

/-- The value 360 is positive. -/
theorem unit_pos : (0 : Int) < 360 * (UNIT : Int) := by decide!

/-- The second loop on a value up to 360: unchanged below 360, and 360 itself becomes 0. -/
theorem wrapDown_upto360 (fuel : Nat) (y : Int) (h1 : y ≤ 360 * (UNIT : Int)) :
    wrapDown (fuel + 2) (Double.fin y) =
      some (Double.fin (if y < 360 * (UNIT : Int) then y else 0)) := by
  by_cases h : y < 360 * (UNIT : Int)
  · have hge : (Double.fin y).ge d360 = false := by
      simp only [Double.ge, d360, decide_eq_false_iff_not, not_le]
      exact h
    rw [wrapDown, hge, if_pos h]
    rfl
  · have hy : y = 360 * (UNIT : Int) := le_antisymm h1 (not_lt.mp h)
    have hge : (Double.fin y).ge d360 = true := by
      simp only [Double.ge, d360, decide_eq_true_eq]
      exact not_lt.mp h
    have hsub : (Double.fin y).sub d360 = Double.fin 0 := by
      simp only [Double.sub, Double.neg, d360, Double.add, hy, add_neg_cancel]
      decide
    have hge0 : (Double.fin 0).ge d360 = false := by
      simp only [Double.ge, d360, decide_eq_false_iff_not, not_le]
      exact unit_pos
    rw [wrapDown, hge, if_pos rfl, hsub, wrapDown, hge0, if_neg h]
    rfl

/-- The second loop on a value from 360 on whose difference with 360 is at most 360. -/
theorem wrapDown_ge (fuel : Nat) (k y : Int) (h : 360 * (UNIT : Int) ≤ k)
    (hr : roundInt (k - 360 * (UNIT : Int)) = Double.fin y) (h1 : y ≤ 360 * (UNIT : Int)) :
    wrapDown (fuel + 3) (Double.fin k) =
      some (Double.fin (if y < 360 * (UNIT : Int) then y else 0)) := by
  have hge : (Double.fin k).ge d360 = true := by
    simp only [Double.ge, d360, decide_eq_true_eq]
    exact h
  have hsub : (Double.fin k).sub d360 = Double.fin y := by
    simp only [Double.sub, Double.neg, d360, Double.add]
    rw [← sub_eq_add_neg]
    exact hr
  rw [wrapDown, hge, if_pos rfl, hsub]
  exact wrapDown_upto360 fuel y h1

/-- A number is below two to the number of its binary digits. -/
theorem lt_pow_bitLen (fuel : Nat) : ∀ n : Nat, n ≤ fuel → n < 2 ^ bitLen fuel n := by
  induction fuel with
  | zero =>
    intro n h
    have : n = 0 := by omega
    subst this
    simp [bitLen]
  | succ fuel ih =>
    intro n h
    rw [bitLen]
    split
    · rename_i hn
      subst hn
      simp
    · rename_i hn
      have := ih (n / 2) (by omega)
      rw [pow_succ]
      omega

/-- A rounded magnitude is a multiple of the rounding unit with at most `2^53` as factor. -/
theorem roundNat_cases (K : Nat) :
    ∃ m, roundNat K = m * 2 ^ (bitLen K K - 53) ∧ m ≤ 2 ^ 53 := by
  have hK := lt_pow_bitLen K K (le_refl K)
  have hb : bitLen K K ≤ bitLen K K - 53 + 53 := by omega
  have hK2 : K < 2 ^ (bitLen K K - 53) * 2 ^ 53 := by
    rw [← pow_add]
    exact lt_of_lt_of_le hK (Nat.pow_le_pow_right (by decide) hb)
  have hq : K / 2 ^ (bitLen K K - 53) < 2 ^ 53 := Nat.div_lt_of_lt_mul hK2
  unfold roundNat
  simp only
  split
  · exact ⟨_, rfl, le_of_lt hq⟩
  · split
    · exact ⟨_, rfl, hq⟩
    · split
      · exact ⟨_, rfl, le_of_lt hq⟩
      · exact ⟨_, rfl, hq⟩

/-- Rounding a rounded magnitude changes nothing. -/
theorem roundNat_idem (K : Nat) : roundNat (roundNat K) = roundNat K := by
  apply roundNat_of_dvd
  obtain ⟨m, hm, hle⟩ := roundNat_cases K
  generalize hj : bitLen K K - 53 = j at hm
  generalize roundNat K = R at *
  rcases Nat.lt_or_ge m (2 ^ 53) with h | h
  · have hR : R < 2 ^ (53 + j) := by
      rw [hm, pow_add]
      exact Nat.mul_lt_mul_of_pos_right h (Nat.pos_pow_of_pos _ (by decide))
    have hb := bitLen_le R R (53 + j) hR
    have hd : 2 ^ j ∣ R := by rw [hm]; exact Dvd.intro_left _ rfl
    exact Nat.dvd_trans (Nat.pow_dvd_pow 2 (by omega)) hd
  · have hm2 : m = 2 ^ 53 := le_antisymm hle h
    have hR : R = 2 ^ (53 + j) := by rw [hm, hm2, pow_add]
    have hb := bitLen_le R R (54 + j) (by
      rw [hR]
      exact Nat.pow_lt_pow_right (by decide) (by omega))
    rw [show (2 : Nat) ^ (bitLen R R - 53) ∣ R ↔ 2 ^ (bitLen R R - 53) ∣ 2 ^ (53 + j) from by
      rw [← hR]]
    exact Nat.pow_dvd_pow 2 (by omega)

/-- Rounding zero gives zero. -/
theorem roundNat_zero : roundNat 0 = 0 := by decide

/-- Rounding of an exact value that is not negative. -/
theorem roundInt_natCast (m : Nat) (h : roundNat m ≤ MAXFIN) :
    roundInt (m : Int) = Double.fin (roundNat m : Int) := by
  unfold roundInt
  rw [Int.natAbs_ofNat, if_neg (not_lt.mpr h)]
  rcases Nat.eq_zero_or_pos m with hz | hpos
  · subst hz
    rw [roundNat_zero]
    rfl
  · rw [Int.sign_eq_one_of_pos (Int.ofNat_lt.mpr hpos), one_mul]

/-- The value 360 in units, as an integer. -/
theorem cast_d360 : ((360 * UNIT : Nat) : Int) = 360 * (UNIT : Int) := by
  rw [Nat.cast_mul]
  rfl

/-- The server loop keeps and destroys by one test per server. -/
theorem evictServers_eq_filter (SERVERTIMEOUT : Int) (myserver : Nat) (now : Int)
    (servers : List Server) :
    (evictServers SERVERTIMEOUT myserver now servers).kept =
        servers.filter (fun s => !decide (now - s.alive > SERVERTIMEOUT ∧ s.addr ≠ myserver)) ∧
    (evictServers SERVERTIMEOUT myserver now servers).destroyed =
        servers.filter (fun s => decide (now - s.alive > SERVERTIMEOUT ∧ s.addr ≠ myserver)) := by
  induction servers with
  | nil => simp [evictServers]
  | cons t next ih =>
    by_cases h : now - t.alive > SERVERTIMEOUT ∧ t.addr ≠ myserver
    · rw [evictServers, if_pos h]
      simp only [List.filter_cons, decide_eq_true h, Bool.not_true, Bool.false_eq_true,
        if_false, if_true, ih.1, ih.2, and_self]
    · rw [evictServers, if_neg h]
      simp only [List.filter_cons, decide_eq_false h, Bool.not_false, Bool.false_eq_true,
        if_false, if_true, ih.1, ih.2, and_self]

/-- C2: after the server loop of `dochecks`, a server of the list has been destroyed exactly
when it is not `myserver` and `now - alive > SERVERTIMEOUT`; every other server is still in
the list, so `myserver` survives whatever its `alive` stamp, and so does every server with
`now - alive <= SERVERTIMEOUT`. -/
theorem evictServers_destroys_iff (SERVERTIMEOUT : Int) (myserver : Nat) (now : Int)
    (servers : List Server) :
    (∀ s, s ∈ (evictServers SERVERTIMEOUT myserver now servers).destroyed ↔
        s ∈ servers ∧ s.addr ≠ myserver ∧ now - s.alive > SERVERTIMEOUT) ∧
    (∀ s, s ∈ (evictServers SERVERTIMEOUT myserver now servers).kept ↔
        s ∈ servers ∧ ¬ (s.addr ≠ myserver ∧ now - s.alive > SERVERTIMEOUT)) ∧
    (∀ s ∈ servers, s.addr = myserver →
        s ∈ (evictServers SERVERTIMEOUT myserver now servers).kept ∧
        s ∉ (evictServers SERVERTIMEOUT myserver now servers).destroyed) ∧
    (∀ s ∈ servers, now - s.alive ≤ SERVERTIMEOUT →
        s ∈ (evictServers SERVERTIMEOUT myserver now servers).kept ∧
        s ∉ (evictServers SERVERTIMEOUT myserver now servers).destroyed) := by
  obtain ⟨ek, ed⟩ := evictServers_eq_filter SERVERTIMEOUT myserver now servers
  have hd : ∀ s, s ∈ (evictServers SERVERTIMEOUT myserver now servers).destroyed ↔
      s ∈ servers ∧ s.addr ≠ myserver ∧ now - s.alive > SERVERTIMEOUT := by
    intro s
    rw [ed, List.mem_filter, decide_eq_true_eq]
    tauto
  have hk : ∀ s, s ∈ (evictServers SERVERTIMEOUT myserver now servers).kept ↔
      s ∈ servers ∧ ¬ (s.addr ≠ myserver ∧ now - s.alive > SERVERTIMEOUT) := by
    intro s
    rw [ek, List.mem_filter, Bool.not_eq_true', decide_eq_false_iff_not]
    tauto
  refine ⟨hd, hk, ?_, ?_⟩
  · intro s hs hmy
    exact ⟨(hk s).2 ⟨hs, fun hc => hc.1 hmy⟩, fun hc => ((hd s).1 hc).2.1 hmy⟩
  · intro s hs hle
    exact ⟨(hk s).2 ⟨hs, fun hc => absurd hc.2 (not_lt.mpr hle)⟩,
      fun hc => absurd ((hd s).1 hc).2.2 (not_lt.mpr hle)⟩

/-- The client loop keeps and destroys by one test per client. -/
theorem evictClientsLoop_eq_filter (limit : Int) (myserver : Server) (now : Int)
    (clients : List Client) :
    (evictClientsLoop limit myserver now clients).kept =
        clients.filter
          (fun c => !decide (c.location.addr ≠ myserver.addr ∧ now - c.alive > limit)) ∧
    (evictClientsLoop limit myserver now clients).destroyed =
        clients.filter
          (fun c => decide (c.location.addr ≠ myserver.addr ∧ now - c.alive > limit)) := by
  induction clients with
  | nil => simp [evictClientsLoop]
  | cons t next ih =>
    by_cases h1 : t.location.addr ≠ myserver.addr
    · by_cases h2 : now - t.alive > limit
      · rw [evictClientsLoop, if_pos h1, if_pos h2]
        simp only [List.filter_cons, decide_eq_true (And.intro h1 h2), Bool.not_true,
          Bool.false_eq_true, if_false, if_true, ih.1, ih.2, and_self]
      · rw [evictClientsLoop, if_pos h1, if_neg h2]
        simp only [List.filter_cons, decide_eq_false (fun hc : _ ∧ _ => h2 hc.2), Bool.not_false,
          Bool.false_eq_true, if_false, if_true, ih.1, ih.2, and_self]
    · rw [evictClientsLoop, if_neg h1]
      simp only [List.filter_cons, decide_eq_false (fun hc : _ ∧ _ => h1 hc.1), Bool.not_false,
        Bool.false_eq_true, if_false, if_true, ih.1, ih.2, and_self]

/-- C3: the client loop of `dochecks` destroys a client exactly when its `location` is not
`myserver` and `now - alive > limit`, the limit being `SILENTCLIENTTIMEOUT` when the
`SERVER_SILENT` bit of `myserver.flags` is set and `CLIENTTIMEOUT` otherwise; every other
client stays. So on a silent node with `SILENTCLIENTTIMEOUT > CLIENTTIMEOUT + 1`, a clock
that is at most `CLIENTTIMEOUT + 1` past every client's `alive` stamp evicts no client. -/
theorem evictClients_destroys_iff (SERVER_SILENT SILENTCLIENTTIMEOUT CLIENTTIMEOUT : Int)
    (myserver : Server) (now : Int) (clients : List Client) :
    (∀ c, c ∈ (evictClients SERVER_SILENT SILENTCLIENTTIMEOUT CLIENTTIMEOUT myserver now
          clients).destroyed ↔
        c ∈ clients ∧ c.location.addr ≠ myserver.addr ∧
          now - c.alive >
            (if Int.land myserver.flags SERVER_SILENT ≠ 0 then SILENTCLIENTTIMEOUT
             else CLIENTTIMEOUT)) ∧
    (∀ c, c ∈ (evictClients SERVER_SILENT SILENTCLIENTTIMEOUT CLIENTTIMEOUT myserver now
          clients).kept ↔
        c ∈ clients ∧ ¬ (c.location.addr ≠ myserver.addr ∧
          now - c.alive >
            (if Int.land myserver.flags SERVER_SILENT ≠ 0 then SILENTCLIENTTIMEOUT
             else CLIENTTIMEOUT))) ∧
    (Int.land myserver.flags SERVER_SILENT ≠ 0 → SILENTCLIENTTIMEOUT > CLIENTTIMEOUT + 1 →
      (∀ c ∈ clients, now - c.alive ≤ CLIENTTIMEOUT + 1) →
      (evictClients SERVER_SILENT SILENTCLIENTTIMEOUT CLIENTTIMEOUT myserver now
          clients).destroyed = [] ∧
      (evictClients SERVER_SILENT SILENTCLIENTTIMEOUT CLIENTTIMEOUT myserver now
          clients).kept = clients) := by
  obtain ⟨ek, ed⟩ := evictClientsLoop_eq_filter
    (clientLimit SERVER_SILENT SILENTCLIENTTIMEOUT CLIENTTIMEOUT myserver) myserver now clients
  unfold clientLimit at ek ed
  refine ⟨?_, ?_, ?_⟩
  · intro c
    rw [evictClients, clientLimit, ed, List.mem_filter, decide_eq_true_eq]
  · intro c
    rw [evictClients, clientLimit, ek, List.mem_filter, Bool.not_eq_true',
      decide_eq_false_iff_not]
  · intro hs hgt hall
    rw [evictClients, clientLimit, ek, ed, if_pos hs]
    constructor
    · rw [List.filter_eq_nil_iff]
      intro c hc
      have := hall c hc
      simp only [decide_eq_true_eq, not_and, not_lt]
      intro _
      omega
    · rw [List.filter_eq_self]
      intro c hc
      have := hall c hc
      simp only [Bool.not_eq_true', decide_eq_false_iff_not, not_and, not_lt]
      intro _
      omega

/-- C3, silent scenario: with `SERVER_SILENT = 2`, `SILENTCLIENTTIMEOUT = 36000` and
`CLIENTTIMEOUT = 800`, two remote clients last heard at second 1000 are both kept at
second 1801. -/
theorem evictClients_silent_witness :
    (evictClients 2 36000 800 sampleSilentMyserver 1801 [samplePilot, sampleAtc]).destroyed = [] ∧
    (evictClients 2 36000 800 sampleSilentMyserver 1801 [samplePilot, sampleAtc]).kept =
      [samplePilot, sampleAtc] :=
  (evictClients_destroys_iff 2 36000 800 sampleSilentMyserver 1801 [samplePilot, sampleAtc]).2.2
    (by decide) (by decide) (by decide)

/-- C2, sample: with `SERVERTIMEOUT = 800` at second 5000, the peer last heard at second
1000 is destroyed and the own entry, as old, is kept. -/
theorem evictServers_sample :
    samplePeer ∈ (evictServers 800 1 5000 [sampleMyserver, samplePeer]).destroyed ∧
    sampleMyserver ∈ (evictServers 800 1 5000 [sampleMyserver, samplePeer]).kept :=
  ⟨((evictServers_destroys_iff 800 1 5000 [sampleMyserver, samplePeer]).1 samplePeer).2
      ⟨by decide, by decide, by decide⟩,
    ((evictServers_destroys_iff 800 1 5000 [sampleMyserver, samplePeer]).2.2.1 sampleMyserver
      (by decide) rfl).1⟩

/-! ## The server-notify duty -/

/-- C4 (evaluation of the code): when `dochecks` runs once per second from the constructor's
state and `NOTIFYCHECK >= 0`, the status block of lines 203-207 resets `prevnotify` on every
call, so no call ever issues the server-notify broadcast, while `prevnotify` changes on
every call. -/
theorem runTicks_never_notifies (NOTIFYCHECK boot : Int) (h : 0 ≤ NOTIFYCHECK) (n : Nat) :
    (runTicks NOTIFYCHECK boot n).notified = [] ∧
    (runTicks NOTIFYCHECK boot n).prevnotify = boot + n ∧
    (runTicks NOTIFYCHECK boot n).statuswrites = n := by
  induction n with
  | zero => simp [runTicks, bootState]
  | succ n ih =>
    obtain ⟨h1, h2, h3⟩ := ih
    have ha : boot + ((n + 1 : Nat) : Int) - (runTicks NOTIFYCHECK boot n).prevnotify ≤ 5 := by
      rw [h2]; push_cast; omega
    have hb : ¬ (boot + ((n + 1 : Nat) : Int) - (boot + ((n + 1 : Nat) : Int)) > NOTIFYCHECK) := by
      omega
    simp only [runTicks, notifyDuty, ha, if_true, hb, if_false, h1, h3, and_self]

/-- C4, concrete run: `NOTIFYCHECK = 3`, boot at second 1000, ten calls at seconds 1001 to
1010: no broadcast, although more than 3 seconds have passed since boot from the fourth call
on, and `prevnotify` has moved to 1010. -/
theorem runTicks_never_notifies_witness :
    (runTicks 3 1000 10).notified = [] ∧ (runTicks 3 1000 10).prevnotify = 1000 + (10 : Nat) ∧
    (runTicks 3 1000 10).statuswrites = 10 :=
  runTicks_never_notifies 3 1000 (by decide) 10

/-! ## The `printf` conversions and the fields of a roster line -/

/-- `%02d` of a number below 100 is its two decimal digits. -/
theorem fmtD0_two : ∀ n : Nat, n < 100 →
    fmtD0 2 (n : Int) = String.mk [Nat.digitChar (n / 10), Nat.digitChar (n % 10)] := by
  decide

set_option maxRecDepth 100000 in
/-- `%03d` of a number below 1000 is its three decimal digits. -/
theorem fmtD0_three : ∀ n : Nat, n < 1000 →
    fmtD0 3 (n : Int) =
      String.mk [Nat.digitChar (n / 100), Nat.digitChar (n / 10 % 10), Nat.digitChar (n % 10)] := by
  decide

/-- The characters `Nat.digitChar` gives for 0 to 9 are decimal digits. -/
theorem digitChar_isDigit (d : Nat) (h : d < 10) : (Nat.digitChar d).isDigit = true := by
  interval_cases d <;> decide

/-- The digit character of `d` stands for `d`. -/
theorem digitChar_val (d : Nat) (h : d < 10) : (Nat.digitChar d).toNat - 48 = d := by
  interval_cases d <;> decide

/-- Every character of a decimal text is a decimal digit. -/
theorem decDigits_isDigit (fuel : Nat) : ∀ n, ∀ c ∈ decDigits fuel n, c.isDigit = true := by
  induction fuel with
  | zero => intro n c h; simp [decDigits] at h
  | succ fuel ih =>
    intro n c h
    rw [decDigits] at h
    split at h
    · rename_i hn
      simp only [List.mem_singleton] at h
      subst h
      exact digitChar_isDigit n hn
    · simp only [List.mem_append, List.mem_singleton] at h
      rcases h with h | h
      · exact ih _ c h
      · subst h
        exact digitChar_isDigit _ (Nat.mod_lt _ (by decide))

/-- A decimal text is not empty. -/
theorem decDigits_ne_nil (fuel n : Nat) : decDigits (fuel + 1) n ≠ [] := by
  rw [decDigits]
  split <;> simp

/-- Value of a digit list with one more digit. -/
theorem digitsVal_append (l : List Char) (c : Char) :
    digitsVal (l ++ [c]) = 10 * digitsVal l + (c.toNat - 48) := by
  simp [digitsVal, List.foldl_append]

/-- The decimal text of `n` has the value `n`. -/
theorem digitsVal_decDigits (fuel : Nat) : ∀ n, n < fuel → digitsVal (decDigits fuel n) = n := by
  induction fuel with
  | zero => intro n h; omega
  | succ fuel ih =>
    intro n h
    rw [decDigits]
    split
    · rename_i hn
      simp only [digitsVal, List.foldl_cons, List.foldl_nil, Nat.mul_zero, Nat.zero_add]
      exact digitChar_val n hn
    · rw [digitsVal_append, ih (n / 10) (by omega), digitChar_val _ (Nat.mod_lt _ (by decide))]
      omega

/-- The characters of `natDec`. -/
theorem natDec_data (n : Nat) : (natDec n).data = decDigits (n + 1) n := rfl

/-- Different numbers have different decimal texts. -/
theorem natDec_injective (a b : Nat) (h : (natDec a).data = (natDec b).data) : a = b := by
  rw [natDec_data, natDec_data] at h
  have := congrArg digitsVal h
  rwa [digitsVal_decDigits _ a (by omega), digitsVal_decDigits _ b (by omega)] at this

/-- The characters `%d` prints: the sign, then the digits. -/
theorem fmtD_data (n : Int) :
    (fmtD n).data = (if n < 0 then ['-'] else []) ++ decDigits (n.natAbs + 1) n.natAbs := by
  unfold fmtD signText
  by_cases h : n < 0
  · simp [h, String.data_append, natDec_data]
  · simp [h, String.data_append, natDec_data]

/-- The text `%d` prints is not empty. -/
theorem fmtD_ne_nil (n : Int) : (fmtD n).data ≠ [] := by
  rw [fmtD_data]
  intro h
  exact decDigits_ne_nil _ _ (List.append_eq_nil.mp h).2

/-- A colon and a NUL are not decimal digits. -/
theorem sep_not_digit (x : Char) (hx : x = ':' ∨ x = '\x00') : x.isDigit = false := by
  rcases hx with rfl | rfl <;> decide

/-- The text `%d` prints holds neither a colon nor a NUL. -/
theorem fmtD_no_sep (x : Char) (hx : x = ':' ∨ x = '\x00') (n : Int) : x ∉ (fmtD n).data := by
  rw [fmtD_data]
  intro h
  rw [List.mem_append] at h
  rcases h with h | h
  · split at h
    · simp only [List.mem_singleton] at h
      subst h
      rcases hx with hx | hx <;> exact absurd hx (by decide)
    · simp at h
  · have := decDigits_isDigit _ _ _ h
    rw [sep_not_digit x hx] at this
    exact absurd this (by decide)

/-- Different integers are printed differently by `%d`. -/
theorem fmtD_injective (a b : Int) (h : (fmtD a).data = (fmtD b).data) : a = b := by
  rw [fmtD_data, fmtD_data] at h
  have hd : ∀ n : Nat, ∃ c t, decDigits (n + 1) n = c :: t ∧ c.isDigit = true := by
    intro n
    cases hl : decDigits (n + 1) n with
    | nil => exact absurd hl (decDigits_ne_nil _ _)
    | cons c t => exact ⟨c, t, rfl, decDigits_isDigit _ _ c (by rw [hl]; simp)⟩
  by_cases ha : a < 0 <;> by_cases hb : b < 0
  · rw [if_pos ha, if_pos hb] at h
    simp only [List.singleton_append, List.cons.injEq, true_and] at h
    have := natDec_injective _ _ h
    omega
  · rw [if_pos ha, if_neg hb] at h
    obtain ⟨c, t, hc, hdig⟩ := hd b.natAbs
    rw [hc] at h
    simp only [List.singleton_append, List.nil_append, List.cons.injEq] at h
    rw [← h.1] at hdig
    exact absurd hdig (by decide)
  · rw [if_neg ha, if_pos hb] at h
    obtain ⟨c, t, hc, hdig⟩ := hd a.natAbs
    rw [hc] at h
    simp only [List.singleton_append, List.nil_append, List.cons.injEq] at h
    rw [h.1] at hdig
    exact absurd hdig (by decide)
  · rw [if_neg ha, if_neg hb] at h
    simp only [List.nil_append] at h
    have := natDec_injective _ _ h
    omega

/-- The sign holds neither a colon nor a NUL. -/
theorem signText_no_sep (x : Char) (hx : x = ':' ∨ x = '\x00') (b : Bool) :
    x ∉ (signText b).data := by
  rcases hx with rfl | rfl <;> cases b <;> decide

/-- A decimal text holds neither a colon nor a NUL. -/
theorem natDec_no_sep (x : Char) (hx : x = ':' ∨ x = '\x00') (n : Nat) :
    x ∉ (natDec n).data := by
  rw [natDec_data]
  intro h
  have := decDigits_isDigit _ _ _ h
  rw [sep_not_digit x hx] at this
  exact absurd this (by decide)

/-- The text `%0wd` prints holds neither a colon nor a NUL. -/
theorem fmtD0_no_sep (x : Char) (hx : x = ':' ∨ x = '\x00') (w : Nat) (n : Int) :
    x ∉ (fmtD0 w n).data := by
  unfold fmtD0
  simp only [String.data_append, List.mem_append, not_or]
  refine ⟨⟨signText_no_sep x hx _, ?_⟩, natDec_no_sep x hx _⟩
  intro h
  have := List.eq_of_mem_replicate h
  rcases hx with hx | hx <;> exact absurd (this.symm.trans hx) (by decide)

/-- The text `%f` prints holds neither a colon nor a NUL. -/
theorem fmtF_no_sep (x : Char) (hx : x = ':' ∨ x = '\x00') (d : Double) :
    x ∉ (fmtF d).data := by
  cases d with
  | nan => rcases hx with rfl | rfl <;> decide
  | inf s => rcases hx with rfl | rfl <;> cases s <;> decide
  | fin k =>
    unfold fmtF
    simp only [String.data_append, List.mem_append, not_or]
    exact ⟨⟨⟨signText_no_sep x hx _, natDec_no_sep x hx _⟩,
      by rcases hx with rfl | rfl <;> decide⟩, fmtD0_no_sep x hx _ _⟩

/-- Roster segment 2 holds neither a colon nor a NUL. -/
theorem dataseg2_no_sep (x : Char) (hx : x = ':' ∨ x = '\x00') (f : Int) :
    x ∉ (dataseg2 f).data := by
  unfold dataseg2
  split
  · simp only [String.data_append, List.mem_append, not_or]
    exact ⟨⟨⟨by rcases hx with rfl | rfl <;> decide, fmtD0_no_sep x hx _ _⟩,
      by rcases hx with rfl | rfl <;> decide⟩, fmtD0_no_sep x hx _ _⟩
  · rcases hx with rfl | rfl <;> decide

/-- The characters `%s` prints: those before the first NUL. -/
theorem fmtS_data (s : String) :
    (fmtS s).data = s.data.takeWhile (fun c => c != '\x00') := rfl

/-- The conversion `%s` prints a text without NUL as it is. -/
theorem fmtS_of_no_nul (s : String) (h : '\x00' ∉ s.data) : fmtS s = s := by
  apply String.ext
  rw [fmtS_data, List.takeWhile_eq_self_iff]
  intro c hc
  simp only [bne_iff_ne, ne_eq]
  rintro rfl
  exact h hc

/-- What `%s` prints holds no NUL. -/
theorem fmtS_no_nul (s : String) : '\x00' ∉ (fmtS s).data := by
  rw [fmtS_data]
  intro h
  have := List.mem_takeWhile_imp h
  simp at this

/-- A NUL-free text in front of another is printed by `%s` in front of what `%s` prints of
the other. -/
theorem fmtS_append (a b : String) (h : '\x00' ∉ a.data) : fmtS (a ++ b) = a ++ fmtS b := by
  apply String.ext
  rw [String.data_append, fmtS_data, fmtS_data, String.data_append]
  generalize a.data = l at h
  induction l with
  | nil => rfl
  | cons c t ih =>
    have hc : (c != '\x00') = true := by
      simp only [bne_iff_ne, ne_eq]
      rintro rfl
      exact h (List.mem_cons_self _ _)
    rw [List.cons_append, List.takeWhile_cons, hc, if_pos rfl, List.cons_append,
      ih (fun hm => h (List.mem_cons_of_mem _ hm))]

/-- Two texts without colon that are followed by a colon in equal lines are equal, and so is what follows. -/
theorem split_colon : ∀ (a b r s : List Char), ':' ∉ a → ':' ∉ b →
    a ++ ':' :: r = b ++ ':' :: s → a = b ∧ r = s := by
  intro a
  induction a with
  | nil =>
    intro b r s _ hb h
    cases b with
    | nil => simpa using h
    | cons c t =>
      simp only [List.nil_append, List.cons_append, List.cons.injEq] at h
      exact absurd (h.1 ▸ List.mem_cons_self _ _) hb
  | cons x a ih =>
    intro b r s ha hb h
    cases b with
    | nil =>
      simp only [List.nil_append, List.cons_append, List.cons.injEq] at h
      exact absurd (h.1 ▸ List.mem_cons_self _ _) ha
    | cons c t =>
      simp only [List.cons_append, List.cons.injEq] at h
      have := ih t r s (fun hm => ha (List.mem_cons_of_mem _ hm))
        (fun hm => hb (List.mem_cons_of_mem _ hm)) h.2
      exact ⟨by rw [h.1, this.1], this.2⟩

/-- Equal joins of equally many colon-free fields have equal fields and equal rests. -/
theorem joinFields_inj : ∀ (fs gs : List (List Char)) (r s : List Char),
    fs.length = gs.length → (∀ f ∈ fs, ':' ∉ f) → (∀ g ∈ gs, ':' ∉ g) →
    joinFields fs r = joinFields gs s → fs = gs ∧ r = s := by
  intro fs
  induction fs with
  | nil =>
    intro gs r s hl _ _ h
    cases gs with
    | nil => exact ⟨rfl, h⟩
    | cons g gs => simp at hl
  | cons f fs ih =>
    intro gs r s hl hf hg h
    cases gs with
    | nil => simp at hl
    | cons g gs =>
      simp only [joinFields, List.foldr_cons] at h
      obtain ⟨h1, h2⟩ := split_colon f g _ _ (hf f (List.mem_cons_self _ _))
        (hg g (List.mem_cons_self _ _)) h
      obtain ⟨h3, h4⟩ := ih gs r s (by simpa using hl)
        (fun x hx => hf x (List.mem_cons_of_mem _ hx))
        (fun x hx => hg x (List.mem_cons_of_mem _ hx)) h2
      exact ⟨by rw [h1, h3], h4⟩

/-- Joining a concatenation of field lists. -/
theorem joinFields_append (fs gs : List (List Char)) (r : List Char) :
    joinFields (fs ++ gs) r = joinFields fs (joinFields gs r) := by
  simp [joinFields, List.foldr_append]

/-- A character other than the colon that is in no field and not in the rest is not in the
join. -/
theorem joinFields_not_mem (x : Char) (hx : x ≠ ':') (r : List Char) (hr : x ∉ r) :
    ∀ fs : List (List Char), (∀ f ∈ fs, x ∉ f) → x ∉ joinFields fs r := by
  intro fs
  induction fs with
  | nil => intro _; exact hr
  | cons f fs ih =>
    intro hf hm
    simp only [joinFields, List.foldr_cons, List.mem_append, List.mem_cons] at hm
    rcases hm with hm | hm | hm
    · exact hf f (List.mem_cons_self _ _) hm
    · exact hx hm
    · exact ih (fun g hg => hf g (List.mem_cons_of_mem _ hg)) hm

/-- There are four position fields. -/
theorem posFields_length (c : Client) : (posFields c).length = 4 := by
  unfold posFields
  split <;> rfl

/-- Segment 4 has five fields. -/
theorem planFields4_length (p : Option FlightPlan) : (planFields4 p).length = 5 := by
  cases p <;> rfl

/-- Segment 6 has eleven fields. -/
theorem planFields6_length (p : Option FlightPlan) : (planFields6 p).length = 11 := by
  cases p <;> rfl

/-- A line has 37 fields before the start time. -/
theorem clientFields_length (c : Client) : (clientFields c).length = 37 := by
  simp [clientFields, posFields_length, planFields4_length, planFields6_length]

/-- When the printed texts of a record hold no colon (no NUL), no field of its line does. -/
theorem clientFields_no_sep (x : Char) (hx : x = ':' ∨ x = '\x00') (c : Client)
    (h : ∀ s ∈ printedTexts c, x ∉ s) : ∀ f ∈ clientFields c, x ∉ f := by
  intro f hf
  simp only [clientFields, List.mem_append, List.mem_cons, List.mem_singleton,
    List.not_mem_nil, or_false] at hf
  have hnil : x ∉ ([] : List Char) := by simp
  rcases hf with ((((hf | hf) | hf) | hf) | hf) | hf
  · rcases hf with rfl | rfl | rfl | rfl | rfl
    · exact h _ (by simp [printedTexts])
    · exact h _ (by simp [printedTexts])
    · exact h _ (by simp [printedTexts])
    · rcases hx with rfl | rfl <;> split <;> decide
    · exact dataseg2_no_sep x hx _
  · unfold posFields at hf
    split at hf
    · simp only [List.mem_cons, List.mem_singleton, List.not_mem_nil, or_false] at hf
      rcases hf with rfl | rfl | rfl | rfl
      · exact fmtF_no_sep x hx _
      · exact fmtF_no_sep x hx _
      · exact fmtD_no_sep x hx _
      · exact fmtD_no_sep x hx _
    · simp only [List.mem_cons, List.mem_singleton, List.not_mem_nil, or_false, or_self] at hf
      subst hf; exact hnil
  · cases hp : c.plan with
    | none =>
      rw [hp] at hf
      simp only [planFields4, List.mem_cons, List.mem_singleton, List.not_mem_nil, or_false,
        or_self] at hf
      subst hf; exact hnil
    | some p =>
      rw [hp] at hf
      simp only [planFields4, List.mem_cons, List.mem_singleton, List.not_mem_nil,
        or_false] at hf
      rcases hf with rfl | rfl | rfl | rfl | rfl
      · exact h _ (by simp [printedTexts, hp])
      · exact fmtD_no_sep x hx _
      · exact h _ (by simp [printedTexts, hp])
      · exact h _ (by simp [printedTexts, hp])
      · exact h _ (by simp [printedTexts, hp])
  · rcases hf with rfl | rfl | rfl | rfl | rfl | rfl
    · exact h _ (by simp [printedTexts])
    · exact h _ (by simp [printedTexts])
    · exact fmtD_no_sep x hx _
    · exact fmtD_no_sep x hx _
    · exact fmtD_no_sep x hx _
    · exact fmtD_no_sep x hx _
  · cases hp : c.plan with
    | none =>
      rw [hp] at hf
      simp only [planFields6, List.mem_cons, List.mem_singleton, List.not_mem_nil, or_false,
        or_self] at hf
      subst hf; exact hnil
    | some p =>
      rw [hp] at hf
      simp only [planFields6, List.mem_cons, List.mem_singleton, List.not_mem_nil,
        or_false] at hf
      rcases hf with rfl | rfl | rfl | rfl | rfl | rfl | rfl | rfl | rfl | rfl | rfl
      · exact fmtD_no_sep x hx _
      · exact h _ (by simp [printedTexts, hp])
      · exact fmtD_no_sep x hx _
      · exact fmtD_no_sep x hx _
      · exact fmtD_no_sep x hx _
      · exact fmtD_no_sep x hx _
      · exact fmtD_no_sep x hx _
      · exact fmtD_no_sep x hx _
      · exact h _ (by simp [printedTexts, hp])
      · exact h _ (by simp [printedTexts, hp])
      · exact h _ (by simp [printedTexts, hp])
  · simp only [or_self] at hf
    subst hf; exact hnil

/-- Segment 1 of a record without NUL in its texts is the join of its four fields. -/
theorem dataseg1_data (c : Client) (hn : ∀ s ∈ printedTexts c, '\x00' ∉ s) (r : List Char) :
    (dataseg1 c).data ++ ':' :: r =
      joinFields [c.callsign.data, c.cid.data, c.realname.data,
        (if c.type = CLIENT_ATC then "ATC" else "PILOT").data] r := by
  unfold dataseg1
  rw [fmtS_of_no_nul _ (hn _ (by simp [printedTexts])),
    fmtS_of_no_nul _ (hn _ (by simp [printedTexts])),
    fmtS_of_no_nul _ (hn _ (by simp [printedTexts]))]
  simp [joinFields, String.data_append]

/-- Segment 3 is the join of the four position fields. -/
theorem dataseg3_data (c : Client) (r : List Char) :
    (dataseg3 c).data ++ ':' :: r = joinFields (posFields c) r := by
  unfold dataseg3 posFields
  split
  · simp [joinFields, String.data_append]
  · simp [joinFields]

/-- Segment 4 of a record without NUL in its texts is the join of its five flight-plan
fields. -/
theorem dataseg4_data (c : Client) (hn : ∀ s ∈ printedTexts c, '\x00' ∉ s) (r : List Char) :
    (dataseg4 c.plan).data ++ ':' :: r = joinFields (planFields4 c.plan) r := by
  cases hp : c.plan with
  | none => simp [dataseg4, planFields4, joinFields]
  | some p =>
    unfold dataseg4
    simp only
    rw [fmtS_of_no_nul _ (hn _ (by simp [printedTexts, hp])),
      fmtS_of_no_nul _ (hn _ (by simp [printedTexts, hp])),
      fmtS_of_no_nul _ (hn _ (by simp [printedTexts, hp])),
      fmtS_of_no_nul _ (hn _ (by simp [printedTexts, hp]))]
    simp [planFields4, joinFields, String.data_append]

/-- Segment 5 of a record without NUL in its texts is the join of its six fields. -/
theorem dataseg5_data (c : Client) (hn : ∀ s ∈ printedTexts c, '\x00' ∉ s) (r : List Char) :
    (dataseg5 c).data ++ ':' :: r =
      joinFields [c.location.ident.data, c.protocol.data, (fmtD c.rating).data,
        (fmtD c.transponder).data, (fmtD c.facilitytype).data, (fmtD c.visualrange).data] r := by
  unfold dataseg5
  rw [fmtS_of_no_nul _ (hn _ (by simp [printedTexts])),
    fmtS_of_no_nul _ (hn _ (by simp [printedTexts]))]
  simp [joinFields, String.data_append]

/-- Segment 6 of a record without NUL in its texts is the join of its eleven flight-plan
fields. -/
theorem dataseg6_data (c : Client) (hn : ∀ s ∈ printedTexts c, '\x00' ∉ s) (r : List Char) :
    (dataseg6 c.plan).data ++ ':' :: r = joinFields (planFields6 c.plan) r := by
  cases hp : c.plan with
  | none => simp [dataseg6, planFields6, joinFields]
  | some p =>
    unfold dataseg6
    simp only
    rw [fmtS_of_no_nul _ (hn _ (by simp [printedTexts, hp])),
      fmtS_of_no_nul _ (hn _ (by simp [printedTexts, hp])),
      fmtS_of_no_nul _ (hn _ (by simp [printedTexts, hp]))]
    simp [planFields6, joinFields, String.data_append, String.singleton]

/-- A text that is, before a colon, the join of NUL-free fields holds no NUL. -/
theorem segment_no_nul (s : String) (fs : List (List Char))
    (h : s.data ++ ':' :: [] = joinFields fs []) (hf : ∀ f ∈ fs, '\x00' ∉ f) :
    '\x00' ∉ s.data := by
  intro hm
  have := joinFields_not_mem '\x00' (by decide) [] (by simp) fs hf
  rw [← h] at this
  exact this (List.mem_append_left _ hm)

/-- The segments of a record without NUL in its texts hold no NUL, so that line 300 prints
them whole. -/
theorem segments_no_nul (sprintgmt : Int → String) (c : Client)
    (hn : ∀ s ∈ printedTexts c, '\x00' ∉ s) :
    fmtS (dataseg1 c) = dataseg1 c ∧ fmtS (dataseg2 c.frequency) = dataseg2 c.frequency ∧
    fmtS (dataseg3 c) = dataseg3 c ∧ fmtS (dataseg4 c.plan) = dataseg4 c.plan ∧
    fmtS (dataseg5 c) = dataseg5 c ∧ fmtS (dataseg6 c.plan) = dataseg6 c.plan ∧
    fmtS (dataseg7 sprintgmt c) = dataseg7 sprintgmt c := by
  have hall := clientFields_no_sep '\x00' (Or.inr rfl) c hn
  refine ⟨?_, ?_, ?_, ?_, ?_, ?_, ?_⟩
  · exact fmtS_of_no_nul _ (segment_no_nul _ _ (dataseg1_data c hn [])
      (fun f hf => hall f (by
        simp only [List.mem_cons, List.mem_singleton, List.not_mem_nil, or_false] at hf
        simp only [clientFields, List.mem_append, List.mem_cons, List.mem_singleton]
        tauto)))
  · exact fmtS_of_no_nul _ (dataseg2_no_sep _ (Or.inr rfl) _)
  · exact fmtS_of_no_nul _ (segment_no_nul _ _ (dataseg3_data c [])
      (fun f hf => hall f (by
        simp only [clientFields, List.mem_append, List.mem_cons, List.mem_singleton]
        tauto)))
  · exact fmtS_of_no_nul _ (segment_no_nul _ _ (dataseg4_data c hn [])
      (fun f hf => hall f (by
        simp only [clientFields, List.mem_append, List.mem_cons, List.mem_singleton]
        tauto)))
  · exact fmtS_of_no_nul _ (segment_no_nul _ _ (dataseg5_data c hn [])
      (fun f hf => hall f (by
        simp only [List.mem_cons, List.mem_singleton, List.not_mem_nil, or_false] at hf
        simp only [clientFields, List.mem_append, List.mem_cons, List.mem_singleton]
        tauto)))
  · exact fmtS_of_no_nul _ (segment_no_nul _ _ (dataseg6_data c hn [])
      (fun f hf => hall f (by
        simp only [clientFields, List.mem_append, List.mem_cons, List.mem_singleton]
        tauto)))
  · unfold dataseg7
    rw [fmtS_append _ _ (by decide), fmtS_of_no_nul _ (fmtS_no_nul _)]

/-- A `!CLIENTS` line of a record without NUL in its texts is the join of its 37 fields,
then the start time and the newline. -/
theorem clientLine_data (sprintgmt : Int → String) (c : Client)
    (hn : ∀ s ∈ printedTexts c, '\x00' ∉ s) :
    (clientLine sprintgmt c).data =
      joinFields (clientFields c) ((fmtS (sprintgmt c.starttime)).data ++ ['\n']) := by
  obtain ⟨e1, e2, e3, e4, e5, e6, e7⟩ := segments_no_nul sprintgmt c hn
  unfold clientLine
  rw [e1, e2, e3, e4, e5, e6, e7]
  unfold clientFields
  rw [joinFields_append, joinFields_append, joinFields_append, joinFields_append,
    joinFields_append,
    ← dataseg6_data c hn, ← dataseg5_data c hn, ← dataseg4_data c hn, ← dataseg3_data]
  have hA : ∀ r, joinFields [c.callsign.data, c.cid.data, c.realname.data,
      (if c.type = CLIENT_ATC then "ATC" else "PILOT").data, (dataseg2 c.frequency).data] r =
      joinFields [c.callsign.data, c.cid.data, c.realname.data,
        (if c.type = CLIENT_ATC then "ATC" else "PILOT").data]
        ((dataseg2 c.frequency).data ++ ':' :: r) := fun _ => rfl
  rw [hA, ← dataseg1_data c hn]
  simp [dataseg7, joinFields, String.data_append]

/-! ## Roster segment 2 -/

/-- Segment 2 of a frequency between 1 and 99999: `1`, two digits, `.`, three digits. -/
theorem dataseg2_digits (f : Nat) (h0 : 0 < f) (h1 : f < 100000) :
    dataseg2 (f : Int) =
      String.mk ['1', Nat.digitChar (f / 10000), Nat.digitChar (f / 1000 % 10), '.',
        Nat.digitChar (f / 100 % 10), Nat.digitChar (f / 10 % 10), Nat.digitChar (f % 10)] := by
  have hc : ((f : Int) ≠ 0 ∧ (f : Int) < 100000) := ⟨by omega, by omega⟩
  have e1 : (f : Int).tdiv 1000 = ((f / 1000 : Nat) : Int) := by
    rw [Int.tdiv_eq_ediv (by omega) (by decide)]; norm_cast
  have e2 : (f : Int).tmod 1000 = ((f % 1000 : Nat) : Int) := by
    rw [Int.tmod_eq_emod (by omega) (by decide)]; norm_cast
  rw [dataseg2, if_pos hc, e1, e2, fmtD0_two _ (by omega), fmtD0_three _ (by omega)]
  have a1 : f / 1000 / 10 = f / 10000 := by omega
  have a2 : f % 1000 / 100 = f / 100 % 10 := by omega
  have a3 : f % 1000 / 10 % 10 = f / 10 % 10 := by omega
  have a4 : f % 1000 % 10 = f % 10 := by omega
  rw [a1, a2, a3, a4]
  rfl

/-- C5 (evaluation of the code): for `0 < f < 100000` roster segment 2 is the seven
characters `1`, the two digits of `f / 1000`, `.`, the three digits of `f mod 1000`
(`120.500` for 20500), and it is empty for `f = 0` and for `f >= 100000`. For negative `f`
the test of line 281 (`frequency != 0 && frequency < 100000`) passes, so the segment is not
empty: it is `100.-05` for `f = -5`. -/
theorem dataseg2_cases :
    (∀ f : Nat, 0 < f → f < 100000 →
      dataseg2 (f : Int) =
        String.mk ['1', Nat.digitChar (f / 10000), Nat.digitChar (f / 1000 % 10), '.',
          Nat.digitChar (f / 100 % 10), Nat.digitChar (f / 10 % 10), Nat.digitChar (f % 10)]) ∧
    dataseg2 20500 = "120.500" ∧
    dataseg2 0 = "" ∧
    (∀ f : Int, 100000 ≤ f → dataseg2 f = "") ∧
    (∀ f : Int, f < 0 → dataseg2 f ≠ "") ∧
    dataseg2 (-5) = "100.-05" := by
  refine ⟨?_, by decide, by decide, ?_, ?_, by decide⟩
  · intro f h0 h1
    exact dataseg2_digits f h0 h1
  · intro f hf
    rw [dataseg2, if_neg (by omega)]
  · intro f hf
    rw [dataseg2, if_pos ⟨by omega, by omega⟩]
    intro h
    have := congrArg String.length h
    simp only [String.length_append] at this
    have h1 : "1".length = 1 := by decide
    have h0 : "".length = 0 := by decide
    omega

/-! ## What a roster line determines -/

/-- Different digits have different characters. -/
theorem digitChar_inj (a b : Nat) (ha : a < 10) (hb : b < 10)
    (h : Nat.digitChar a = Nat.digitChar b) : a = b := by
  have := congrArg (fun c : Char => c.toNat - 48) h
  simp only [digitChar_val a ha, digitChar_val b hb] at this
  exact this

/-- Segment 2 tells frequencies between 1 and 99999 apart. -/
theorem dataseg2_inj (f g : Int) (hf0 : 0 < f) (hf1 : f < 100000) (hg0 : 0 < g)
    (hg1 : g < 100000) (h : dataseg2 f = dataseg2 g) : f = g := by
  obtain ⟨m, rfl⟩ := Int.eq_ofNat_of_zero_le (le_of_lt hf0)
  obtain ⟨n, rfl⟩ := Int.eq_ofNat_of_zero_le (le_of_lt hg0)
  have hm0 : 0 < m := by omega
  have hm1 : m < 100000 := by omega
  have hn0 : 0 < n := by omega
  have hn1 : n < 100000 := by omega
  rw [dataseg2_digits m hm0 hm1, dataseg2_digits n hn0 hn1] at h
  have h := congrArg String.data h
  simp only [List.cons.injEq, true_and, and_true] at h
  obtain ⟨h1, h2, h3, h4, h5⟩ := h
  have := digitChar_inj _ _ (by omega) (by omega) h1
  have := digitChar_inj _ _ (Nat.mod_lt _ (by decide)) (Nat.mod_lt _ (by decide)) h2
  have := digitChar_inj _ _ (Nat.mod_lt _ (by decide)) (Nat.mod_lt _ (by decide)) h3
  have := digitChar_inj _ _ (Nat.mod_lt _ (by decide)) (Nat.mod_lt _ (by decide)) h4
  have := digitChar_inj _ _ (Nat.mod_lt _ (by decide)) (Nat.mod_lt _ (by decide)) h5
  have : m = n := by omega
  rw [this]

/-- The role text tells `CLIENT_ATC` from every other type. -/
theorem role_eq (s t : Int)
    (h : (if s = CLIENT_ATC then "ATC" else "PILOT").data =
      (if t = CLIENT_ATC then "ATC" else "PILOT").data) : (s = CLIENT_ATC ↔ t = CLIENT_ATC) := by
  by_cases hs : s = CLIENT_ATC <;> by_cases ht : t = CLIENT_ATC
  · exact ⟨fun _ => ht, fun _ => hs⟩
  · rw [if_pos hs, if_neg ht] at h; exact absurd h (by decide)
  · rw [if_neg hs, if_pos ht] at h; exact absurd h (by decide)
  · exact ⟨fun x => absurd x hs, fun x => absurd x ht⟩

/-- Equal position fields: equal segment 3, and equal printed position values when the position is printed. -/
theorem posFields_eq (a b : Client) (h : posFields a = posFields b) :
    dataseg3 a = dataseg3 b ∧
    ((a.lat.isZero = false ∧ a.altitude < 100000 ∧ a.lon.isZero = false) ↔
      (b.lat.isZero = false ∧ b.altitude < 100000 ∧ b.lon.isZero = false)) ∧
    ((a.lat.isZero = false ∧ a.altitude < 100000 ∧ a.lon.isZero = false) →
      fmtF a.lat = fmtF b.lat ∧ fmtF a.lon = fmtF b.lon ∧ a.altitude = b.altitude ∧
        a.groundspeed = b.groundspeed) := by
  unfold posFields at h
  unfold dataseg3
  by_cases ha : a.lat.isZero = false ∧ a.altitude < 100000 ∧ a.lon.isZero = false <;>
    by_cases hb : b.lat.isZero = false ∧ b.altitude < 100000 ∧ b.lon.isZero = false
  · rw [if_pos ha, if_pos hb] at h
    simp only [List.cons.injEq, and_true] at h
    obtain ⟨h1, h2, h3, h4⟩ := h
    have e1 := String.ext h1
    have e2 := String.ext h2
    have e3 := fmtD_injective _ _ h3
    have e4 := fmtD_injective _ _ h4
    refine ⟨?_, ⟨fun _ => hb, fun _ => ha⟩, fun _ => ⟨e1, e2, e3, e4⟩⟩
    rw [if_pos ha, if_pos hb, e1, e2, e3, e4]
  · rw [if_pos ha, if_neg hb] at h
    simp only [List.cons.injEq, and_true] at h
    exact absurd h.2.2.1 (fmtD_ne_nil _)
  · rw [if_neg ha, if_pos hb] at h
    simp only [List.cons.injEq, and_true] at h
    exact absurd h.2.2.1.symm (fmtD_ne_nil _)
  · rw [if_neg ha, if_neg hb]
    exact ⟨rfl, ⟨fun x => absurd x ha, fun x => absurd x hb⟩, fun x => absurd x ha⟩

/-- Equal flight-plan fields: the plans are both absent, or equal in every field but `callsign`. -/
theorem planFields_eq (p q : Option FlightPlan) (h4 : planFields4 p = planFields4 q)
    (h6 : planFields6 p = planFields6 q) :
    p.map (fun x => { x with callsign := "" }) = q.map (fun x => { x with callsign := "" }) := by
  cases p with
  | none =>
    cases q with
    | none => rfl
    | some q =>
      simp only [planFields4, List.cons.injEq, and_true] at h4
      exact absurd h4.2.1.symm (fmtD_ne_nil _)
  | some p =>
    cases q with
    | none =>
      simp only [planFields4, List.cons.injEq, and_true] at h4
      exact absurd h4.2.1 (fmtD_ne_nil _)
    | some q =>
      simp only [planFields4, planFields6, List.cons.injEq, and_true] at h4 h6
      obtain ⟨a1, a2, a3, a4, a5⟩ := h4
      obtain ⟨b1, b2, b3, b4, b5, b6, b7, b8, b9, b10, b11⟩ := h6
      cases p
      cases q
      simp only at a1 a2 a3 a4 a5 b1 b2 b3 b4 b5 b6 b7 b8 b9 b10 b11
      simp only [Option.map_some', Option.some.injEq, FlightPlan.mk.injEq, true_and]
      exact ⟨fmtD_injective _ _ b1, b2, String.ext a1, fmtD_injective _ _ a2, String.ext a3,
        fmtD_injective _ _ b3, fmtD_injective _ _ b4, String.ext a4, String.ext a5,
        fmtD_injective _ _ b5, fmtD_injective _ _ b6, fmtD_injective _ _ b7,
        fmtD_injective _ _ b8, String.ext b9, String.ext b10, String.ext b11⟩

/-- C10 as amended: the `!CLIENTS` line determines what it prints, not the record. For two
records whose segments fit their buffers and whose printed texts (the `%s` fields and the
`%c` plan type) hold neither a colon nor a NUL, equal lines imply equal callsign, cid,
realname, server ident and protocol, equal rating, transponder, facilitytype and
visualrange, the same role (`CLIENT_ATC` or not), the same frequency segment (hence the same
frequency when both are between 1 and 99999), the same position segment (hence the same
altitude and groundspeed and the same six-decimal `%f` texts of lat and lon when the
position is printed), flight plans that are both absent or equal in every field but
`callsign`, and the same printed `sprintgmt` text of the start time. -/
theorem clientLine_determines (sprintgmt : Int → String) (a b : Client)
    (ha : ∀ s ∈ printedTexts a, ':' ∉ s ∧ '\x00' ∉ s)
    (hb : ∀ s ∈ printedTexts b, ':' ∉ s ∧ '\x00' ∉ s)
    (hfita : segmentsFit sprintgmt a = true) (hfitb : segmentsFit sprintgmt b = true)
    (h : clientLine sprintgmt a = clientLine sprintgmt b) :
    a.callsign = b.callsign ∧ a.cid = b.cid ∧ a.realname = b.realname ∧
    (a.type = CLIENT_ATC ↔ b.type = CLIENT_ATC) ∧
    dataseg2 a.frequency = dataseg2 b.frequency ∧
    (0 < a.frequency → a.frequency < 100000 → 0 < b.frequency → b.frequency < 100000 →
      a.frequency = b.frequency) ∧
    dataseg3 a = dataseg3 b ∧
    ((a.lat.isZero = false ∧ a.altitude < 100000 ∧ a.lon.isZero = false) ↔
      (b.lat.isZero = false ∧ b.altitude < 100000 ∧ b.lon.isZero = false)) ∧
    ((a.lat.isZero = false ∧ a.altitude < 100000 ∧ a.lon.isZero = false) →
      fmtF a.lat = fmtF b.lat ∧ fmtF a.lon = fmtF b.lon ∧ a.altitude = b.altitude ∧
        a.groundspeed = b.groundspeed) ∧
    a.plan.map (fun x => { x with callsign := "" }) =
      b.plan.map (fun x => { x with callsign := "" }) ∧
    a.location.ident = b.location.ident ∧ a.protocol = b.protocol ∧ a.rating = b.rating ∧
    a.transponder = b.transponder ∧ a.facilitytype = b.facilitytype ∧
    a.visualrange = b.visualrange ∧
    fmtS (sprintgmt a.starttime) = fmtS (sprintgmt b.starttime) := by
  have hd := congrArg String.data h
  rw [clientLine_data sprintgmt a (fun s hs => (ha s hs).2),
    clientLine_data sprintgmt b (fun s hs => (hb s hs).2)] at hd
  obtain ⟨hf, hr⟩ := joinFields_inj _ _ _ _
    (by rw [clientFields_length, clientFields_length])
    (clientFields_no_sep ':' (Or.inl rfl) a (fun s hs => (ha s hs).1))
    (clientFields_no_sep ':' (Or.inl rfl) b (fun s hs => (hb s hs).1)) hd
  unfold clientFields at hf
  obtain ⟨h5, -⟩ := List.append_inj hf
    (by simp [posFields_length, planFields4_length, planFields6_length])
  obtain ⟨h4, hP6⟩ := List.append_inj h5
    (by simp [posFields_length, planFields4_length])
  obtain ⟨h3, hB⟩ := List.append_inj h4 (by simp [posFields_length, planFields4_length])
  obtain ⟨h2, hP4⟩ := List.append_inj h3 (by simp [posFields_length])
  obtain ⟨hA, hPos⟩ := List.append_inj h2 rfl
  simp only [List.cons.injEq, and_true] at hA hB
  obtain ⟨a1, a2, a3, a4, a5⟩ := hA
  obtain ⟨b1, b2, b3, b4, b5, b6⟩ := hB
  obtain ⟨p1, p2, p3⟩ := posFields_eq a b hPos
  have hseg2 : dataseg2 a.frequency = dataseg2 b.frequency := String.ext a5
  refine ⟨String.ext a1, String.ext a2, String.ext a3, role_eq _ _ a4, hseg2,
    fun h1 h2 h3 h4 => dataseg2_inj _ _ h1 h2 h3 h4 hseg2, p1, p2, p3,
    planFields_eq _ _ hP4 hP6, String.ext b1, String.ext b2, fmtD_injective _ _ b3,
    fmtD_injective _ _ b4, fmtD_injective _ _ b5, fmtD_injective _ _ b6, ?_⟩
  exact String.ext (List.append_cancel_right hr)

/-- C10, sample: the controller of the samples and the same controller heard later have the
same line (`%d` of the seconds standing for `sprintgmt`), hence the same callsign,
frequency and rating. -/
theorem clientLine_determines_witness :
    sampleAtc.callsign = sampleAtcLater.callsign ∧
    sampleAtc.frequency = sampleAtcLater.frequency ∧
    sampleAtc.rating = sampleAtcLater.rating := by
  have h := clientLine_determines fmtD sampleAtc sampleAtcLater (by decide) (by decide)
    (by decide!) (by decide!) rfl
  exact ⟨h.1, h.2.2.2.2.2.1 (by decide) (by decide) (by decide) (by decide),
    h.2.2.2.2.2.2.2.2.2.2.2.2.1⟩

/-- C10 fails as stated: the controller of the samples with frequency 0 and with frequency
100000 are different records with the same `!CLIENTS` line, whatever `sprintgmt` prints, so
the formatter is injective for no `sprintgmt`; and two records whose flight plans have the
NUL character as `type` and differ in `deptime` have the same line, segment 6 ending at the
NUL. -/
theorem clientLine_not_injective :
    sampleAtcFreq0 ≠ sampleAtcFreq100000 ∧
    (∀ sprintgmt : Int → String,
      clientLine sprintgmt sampleAtcFreq0 = clientLine sprintgmt sampleAtcFreq100000) ∧
    (¬ ∃ sprintgmt : Int → String, Function.Injective (clientLine sprintgmt)) ∧
    sampleAtcPlanNul 1200 ≠ sampleAtcPlanNul 1300 ∧
    (∀ sprintgmt : Int → String,
      clientLine sprintgmt (sampleAtcPlanNul 1200) =
        clientLine sprintgmt (sampleAtcPlanNul 1300)) ∧
    fmtS (dataseg6 (sampleAtcPlanNul 1200).plan) = "3:" := by
  have hne : sampleAtcFreq0 ≠ sampleAtcFreq100000 :=
    fun h => absurd (congrArg Client.frequency h) (by decide)
  have heq : ∀ sprintgmt : Int → String,
      clientLine sprintgmt sampleAtcFreq0 = clientLine sprintgmt sampleAtcFreq100000 := by
    intro sprintgmt
    have h2 : dataseg2 sampleAtcFreq0.frequency = dataseg2 sampleAtcFreq100000.frequency := by
      decide
    unfold clientLine
    rw [h2]
    rfl
  refine ⟨hne, heq, fun ⟨sg, hinj⟩ => hne (hinj (heq sg)), ?_, ?_, by decide⟩
  · exact fun h => absurd (congrArg (fun c => c.plan.map FlightPlan.deptime) h) (by decide)
  · intro sprintgmt
    have h6 : fmtS (dataseg6 (sampleAtcPlanNul 1200).plan) =
        fmtS (dataseg6 (sampleAtcPlanNul 1300).plan) := by decide
    unfold clientLine
    rw [h6]
    rfl

/-! ## The pilot JSON snapshot -/

/-- An entry carries the client's callsign, position, altitude, groundspeed and `pbh`. -/
theorem pilotEntry_copied (heading_from_pbh : Nat → Double)
    (declination_deg : Double → Double → Double → Option Double) (fuel : Nat) (c : Client)
    (j : PilotJson) (h : pilotEntry heading_from_pbh declination_deg fuel c = some j) :
    j.copied = c.copied := by
  unfold pilotEntry at h
  simp only at h
  split at h
  · exact absurd h (by simp)
  · simp only [Option.some.injEq] at h
    subst h
    rfl

/-- The entries the loop appends are those of the clients that pass the three tests. -/
theorem pilotLoop_copied (heading_from_pbh : Nat → Double)
    (declination_deg : Double → Double → Double → Option Double) (fuel : Nat) :
    ∀ (clients : List Client) (acc entries : List PilotJson),
      pilotLoop heading_from_pbh declination_deg fuel clients acc = some entries →
      entries.map PilotJson.copied =
        acc.map PilotJson.copied ++
          (clients.filter (fun c => decide (c.type = CLIENT_PILOT ∧ c.lat.isZero = false ∧
            c.lon.isZero = false ∧ c.altitude < 100000))).map Client.copied := by
  intro clients
  induction clients with
  | nil =>
    intro acc entries h
    simp only [pilotLoop, Option.some.injEq] at h
    simp [h]
  | cons c next ih =>
    intro acc entries h
    rw [pilotLoop] at h
    by_cases h1 : c.type ≠ CLIENT_PILOT
    · rw [if_pos h1] at h
      rw [ih acc entries h, List.filter_cons,
        if_neg (by simp only [decide_eq_true_eq]; exact fun hc => h1 hc.1)]
    · rw [if_neg h1] at h
      by_cases h2 : (c.lat.isZero || c.lon.isZero) = true
      · rw [if_pos h2] at h
        rw [ih acc entries h, List.filter_cons, if_neg]
        simp only [decide_eq_true_eq]
        intro hc
        rw [hc.2.1, hc.2.2.1] at h2
        exact absurd h2 (by decide)
      · rw [if_neg h2] at h
        by_cases h3 : c.altitude ≥ 100000
        · rw [if_pos h3] at h
          rw [ih acc entries h, List.filter_cons,
            if_neg (by simp only [decide_eq_true_eq]; exact fun hc => absurd hc.2.2.2 (by omega))]
        · rw [if_neg h3] at h
          have hq : decide (c.type = CLIENT_PILOT ∧ c.lat.isZero = false ∧
              c.lon.isZero = false ∧ c.altitude < 100000) = true := by
            simp only [Bool.or_eq_true, not_or, Bool.not_eq_true] at h2
            simp only [decide_eq_true_eq]
            exact ⟨not_not.mp h1, h2.1, h2.2, by omega⟩
          cases he : pilotEntry heading_from_pbh declination_deg fuel c with
          | none => rw [he] at h; exact absurd h (by simp)
          | some j =>
            rw [he] at h
            simp only at h
            rw [ih (acc ++ [j]) entries h, List.filter_cons, if_pos hq, List.map_append,
              List.map_cons, List.map_nil, List.map_cons,
              pilotEntry_copied heading_from_pbh declination_deg fuel c j he,
              List.append_assoc, List.singleton_append]

/-- The loop completes when the heading computation of every client that passes the tests
does. -/
theorem pilotLoop_isSome (heading_from_pbh : Nat → Double)
    (declination_deg : Double → Double → Double → Option Double) (fuel : Nat) :
    ∀ (clients : List Client) (acc : List PilotJson),
      (∀ c ∈ clients, c.type = CLIENT_PILOT → c.lat.isZero = false → c.lon.isZero = false →
        c.altitude < 100000 →
        (wrap360 fuel ((heading_from_pbh c.pbh).sub
          ((declination_deg c.lat c.lon d0).getD d0))).isSome = true) →
      ∃ entries, pilotLoop heading_from_pbh declination_deg fuel clients acc = some entries := by
  intro clients
  induction clients with
  | nil => intro acc _; exact ⟨acc, rfl⟩
  | cons c next ih =>
    intro acc hall
    have hnext := fun a => ih a (fun d hd => hall d (List.mem_cons_of_mem c hd))
    rw [pilotLoop]
    by_cases h1 : c.type ≠ CLIENT_PILOT
    · rw [if_pos h1]; exact hnext acc
    · rw [if_neg h1]
      by_cases h2 : (c.lat.isZero || c.lon.isZero) = true
      · rw [if_pos h2]; exact hnext acc
      · rw [if_neg h2]
        by_cases h3 : c.altitude ≥ 100000
        · rw [if_pos h3]; exact hnext acc
        · rw [if_neg h3]
          simp only [Bool.or_eq_true, not_or, Bool.not_eq_true] at h2
          have hw := hall c (List.mem_cons_self c next) (not_not.mp h1) h2.1 h2.2 (by omega)
          obtain ⟨y, hy⟩ := Option.isSome_iff_exists.mp hw
          have he : pilotEntry heading_from_pbh declination_deg fuel c =
              some ⟨c.callsign, c.lat, c.lon, c.altitude, c.groundspeed, c.pbh,
                heading_from_pbh c.pbh, (declination_deg c.lat c.lon d0).getD d0, y⟩ := by
            unfold pilotEntry
            simp only [hy]
          rw [he]
          exact hnext _

/-- C1: whenever the pilot snapshot of `dochecks` is built, its entries are, in list order
and one for one, the clients with `type == CLIENT_PILOT`, `lat != 0`, `lon != 0` and
`altitude < 100000`, each entry carrying that client's callsign, lat, lon, altitude,
groundspeed and pbh; no other client has an entry. The snapshot is built whenever the
`wrap360` call of each such client returns. -/
theorem pilotSnapshot_entries (heading_from_pbh : Nat → Double)
    (declination_deg : Double → Double → Double → Option Double) (fuel : Nat)
    (clients : List Client) :
    (∀ entries, pilotSnapshot heading_from_pbh declination_deg fuel clients = some entries →
      entries.map PilotJson.copied =
        (clients.filter (fun c => decide (c.type = CLIENT_PILOT ∧ c.lat.isZero = false ∧
          c.lon.isZero = false ∧ c.altitude < 100000))).map Client.copied) ∧
    ((∀ c ∈ clients, c.type = CLIENT_PILOT → c.lat.isZero = false → c.lon.isZero = false →
        c.altitude < 100000 →
        (wrap360 fuel ((heading_from_pbh c.pbh).sub
          ((declination_deg c.lat c.lon d0).getD d0))).isSome = true) →
      ∃ entries, pilotSnapshot heading_from_pbh declination_deg fuel clients = some entries) := by
  constructor
  · intro entries h
    have := pilotLoop_copied heading_from_pbh declination_deg fuel clients [] entries h
    simpa using this
  · intro hall
    exact pilotLoop_isSome heading_from_pbh declination_deg fuel clients [] hall

/-- C1, sample registry: of the pilot and the controller of the samples only the pilot has
an entry, and it carries the pilot's fields. -/
theorem pilotSnapshot_entries_witness :
    ∃ entries, pilotSnapshot sampleHeading sampleDeclination 3 [samplePilot, sampleAtc] =
        some entries ∧
      entries.map PilotJson.copied = [samplePilot.copied] := by
  obtain ⟨entries, h⟩ :=
    (pilotSnapshot_entries sampleHeading sampleDeclination 3 [samplePilot, sampleAtc]).2
      (by decide!)
  exact ⟨entries, h,
    ((pilotSnapshot_entries sampleHeading sampleDeclination 3 [samplePilot, sampleAtc]).1
      entries h).trans (by decide)⟩

/-! ## `positionok` -/

/-- A step whose writes all succeed and whose `rename` fails leaves no file at the target. -/
theorem publishRoster_rename_fails (writes : List String) (old : String) :
    FileSys.read (publishRoster ⟨false, writes.length, false, true⟩ "whazzup.txt" writes
        ⟨[("whazzup.txt", old)], 0⟩).fs "whazzup.txt" = none := by
  have hne : ("whazzup.txt" : String) ≠ "whazzup.txt" ++ ".tmp" := by decide
  simp [publishRoster, FileSys.read, FileSys.write, FileSys.remove, hne, hne.symm]

/-- A step whose first write fails puts the empty temp file at the target. -/
theorem publishRoster_write_fails (first : String) (writes : List String) (old : String) :
    FileSys.read (publishRoster ⟨false, 0, false, false⟩ "whazzup.txt" (first :: writes)
        ⟨[("whazzup.txt", old)], 0⟩).fs "whazzup.txt" = some "" := by
  have hne : ("whazzup.txt" : String) ≠ "whazzup.txt" ++ ".tmp" := by decide
  simp [publishRoster, FileSys.read, FileSys.write, FileSys.remove, hne, hne.symm, writeAll]

/-- C7 (evaluation of the code): with the previous roster `old` at `whazzup.txt`, a publish
step of any registry whose writes all succeed and whose `rename` fails leaves no file at
`whazzup.txt`, because line 311 has removed it; a step whose first `fprintf` fails leaves
the content of the empty temp file there instead of `old`. -/
theorem publishRoster_loses_target (sprintgmt sprintgmtdate : Int → String)
    (SERVER_SILENT now : Int) (clients : List Client) (servers : List Server) (old : String) :
    FileSys.read (publishRoster
        ⟨false, (rosterWrites sprintgmt sprintgmtdate SERVER_SILENT now clients servers).length,
          false, true⟩ "whazzup.txt"
        (rosterWrites sprintgmt sprintgmtdate SERVER_SILENT now clients servers)
        ⟨[("whazzup.txt", old)], 0⟩).fs "whazzup.txt" = none ∧
    FileSys.read (publishRoster ⟨false, 0, false, false⟩ "whazzup.txt"
        (rosterWrites sprintgmt sprintgmtdate SERVER_SILENT now clients servers)
        ⟨[("whazzup.txt", old)], 0⟩).fs "whazzup.txt" = some "" :=
  ⟨publishRoster_rename_fails _ old, publishRoster_write_fails _ _ old⟩

/-! ## `bearing_deg` -/

/-- The nearest integer to `a / d` is at most one above the quotient. -/
theorem divRoundEven_le_succ (a d : Nat) : divRoundEven a d ≤ a / d + 1 := by
  unfold divRoundEven
  split
  · omega
  · split
    · omega
    · split <;> omega

/-- The nearest integer to `a / d` does not pass an integer bound of `a / d`. -/
theorem divRoundEven_le (a d B : Nat) (hd : 0 < d) (h : a ≤ B * d) : divRoundEven a d ≤ B := by
  have hq : a / d ≤ B := by
    rw [Nat.div_le_iff_le_mul_add_pred hd]
    have : B * d = d * B := Nat.mul_comm _ _
    omega
  rcases Nat.lt_or_ge (a / d) B with hlt | hge
  · exact le_trans (divRoundEven_le_succ a d) hlt
  · have hqB : a / d = B := le_antisymm hq hge
    have hdm := Nat.div_add_mod a d
    rw [hqB] at hdm
    have : d * B = B * d := Nat.mul_comm _ _
    have hr : a % d = 0 := by omega
    unfold divRoundEven
    rw [hr, if_pos (by omega), hqB]

/-- Rounding a quotient does not pass a bound that is a multiple of the rounding unit. -/
theorem roundRat_le (N D B : Nat) (hD : 0 < D) (h : N ≤ B * D)
    (hdvd : 2 ^ (bitLen (N / D) (N / D) - 53) ∣ B) : roundRat N D ≤ B := by
  unfold roundRat
  simp only
  generalize bitLen (N / D) (N / D) - 53 = j at *
  obtain ⟨c, rfl⟩ := hdvd
  have hp : 0 < 2 ^ j := Nat.pos_pow_of_pos _ (by decide)
  have h2 : N ≤ c * (D * 2 ^ j) := by
    have : 2 ^ j * c * D = c * (D * 2 ^ j) := by ring
    rw [← this]
    exact h
  have := divRoundEven_le N (D * 2 ^ j) c (Nat.mul_pos hD hp) h2
  calc divRoundEven N (D * 2 ^ j) * 2 ^ j ≤ c * 2 ^ j := Nat.mul_le_mul_right _ this
    _ = 2 ^ j * c := Nat.mul_comm _ _

/-- Rounding a quotient that is at most `2^e` gives at most `2^e`. -/
theorem roundRat_le_pow (N D e : Nat) (hD : 0 < D) (h : N ≤ 2 ^ e * D) :
    roundRat N D ≤ 2 ^ e := by
  apply roundRat_le N D (2 ^ e) hD h
  have hq : N / D < 2 ^ (e + 1) := by
    have : N / D ≤ 2 ^ e := by
      rw [Nat.div_le_iff_le_mul_add_pred hD]
      have : 2 ^ e * D = D * 2 ^ e := Nat.mul_comm _ _
      omega
    exact lt_of_le_of_lt this (Nat.pow_lt_pow_right (by decide) (by omega))
  have hb := bitLen_le (N / D) (N / D) (e + 1) hq
  exact Nat.pow_dvd_pow 2 (by omega)

/-- A multiple of a power of two with factor up to `2^53` is a double. -/
theorem roundNat_mul_pow (m j : Nat) (hle : m ≤ 2 ^ 53) : roundNat (m * 2 ^ j) = m * 2 ^ j := by
  apply roundNat_of_dvd
  generalize hR : m * 2 ^ j = R
  rcases Nat.lt_or_ge m (2 ^ 53) with h | h
  · have hR2 : R < 2 ^ (53 + j) := by
      rw [← hR, pow_add]
      exact Nat.mul_lt_mul_of_pos_right h (Nat.pos_pow_of_pos _ (by decide))
    have hb := bitLen_le R R (53 + j) hR2
    have hd : 2 ^ j ∣ R := by rw [← hR]; exact Dvd.intro_left _ rfl
    exact Nat.dvd_trans (Nat.pow_dvd_pow 2 (by omega)) hd
  · have hm2 : m = 2 ^ 53 := le_antisymm hle h
    have hR2 : R = 2 ^ (53 + j) := by rw [← hR, hm2, pow_add]
    have hb := bitLen_le R R (54 + j) (by
      rw [hR2]
      exact Nat.pow_lt_pow_right (by decide) (by omega))
    rw [show (2 : Nat) ^ (bitLen R R - 53) ∣ R ↔ 2 ^ (bitLen R R - 53) ∣ 2 ^ (53 + j) from by
      rw [← hR2]]
    exact Nat.pow_dvd_pow 2 (by omega)

/-- A rounded quotient is a double. -/
theorem roundNat_roundRat (N D : Nat) : roundNat (roundRat N D) = roundRat N D := by
  unfold roundRat
  simp only
  apply roundNat_mul_pow
  have hK := lt_pow_bitLen (N / D) (N / D) (le_refl _)
  have hb : bitLen (N / D) (N / D) ≤ bitLen (N / D) (N / D) - 53 + 53 := by omega
  generalize bitLen (N / D) (N / D) - 53 = j at *
  have hK2 : N / D < 2 ^ j * 2 ^ 53 := by
    rw [← pow_add]
    exact lt_of_lt_of_le hK (Nat.pow_le_pow_right (by decide) hb)
  have hq : N / (D * 2 ^ j) < 2 ^ 53 := by
    rw [← Nat.div_div_eq_div_mul]
    exact Nat.div_lt_of_lt_mul hK2
  exact le_trans (divRoundEven_le_succ _ _) hq

/-- Rounding `K * D / D` is rounding `K`. -/
theorem roundRat_mul_right (K D : Nat) (hD : 0 < D) : roundRat (K * D) D = roundNat K := by
  unfold roundRat roundNat divRoundEven
  simp only
  rw [Nat.mul_div_cancel K hD]
  generalize bitLen K K - 53 = j
  have hp : 0 < 2 ^ j := Nat.pos_pow_of_pos _ (by decide)
  have e1 : K * D / (D * 2 ^ j) = K / 2 ^ j := by
    rw [Nat.mul_comm D, Nat.mul_div_mul_right _ _ hD]
  have e2 : K * D % (D * 2 ^ j) = K % 2 ^ j * D := by
    rw [Nat.mul_comm D, Nat.mul_mod_mul_right]
  rw [e1, e2]
  have c1 : (2 * (K % 2 ^ j * D) < D * 2 ^ j) ↔ (2 * (K % 2 ^ j) < 2 ^ j) := by
    rw [← Nat.mul_assoc, Nat.mul_comm D]
    exact Nat.mul_lt_mul_right hD
  have c2 : (D * 2 ^ j < 2 * (K % 2 ^ j * D)) ↔ (2 ^ j < 2 * (K % 2 ^ j)) := by
    rw [← Nat.mul_assoc, Nat.mul_comm D]
    exact Nat.mul_lt_mul_right hD
  simp only [c1, c2]
  split
  · rfl
  · split
    · rfl
    · split <;> rfl

/-- The unit is positive. -/
theorem UNIT_pos : 0 < UNIT := by decide!
/-- The unit is a power of two. -/
theorem UNIT_eq : UNIT = 2 ^ 1074 := rfl
/-- The value 1 is finite. -/
theorem UNIT_le_maxfin : UNIT ≤ MAXFIN := by decide!
/-- The largest finite value is below `2^1024`. -/
theorem maxfin_lt_pow : MAXFIN < 2 ^ 2098 := by decide!
/-- The largest finite value is a multiple of `2^971`. -/
theorem pow_2045_dvd_maxfin : 2 ^ 2045 ∣ MAXFIN := ⟨2 ^ 53 - 1, by decide!⟩
/-- The factor of `deg2rad`, `0x3F91DF46A2529D39`. -/
theorem deg2rad_factor : M_PI.div d180 = Double.fin (5030569068109113 * 2 ^ 1016) := by decide!
/-- The factor of `rad2deg`, `0x404CA5DC1A63C1F8`. -/
theorem rad2deg_factor : d180.div M_PI = Double.fin (8063664102031864 * 2 ^ 1027) := by decide!
/-- The factor of `deg2rad` is below 1. -/
theorem deg2rad_factor_le : 5030569068109113 * 2 ^ 1016 ≤ UNIT := by decide!
/-- Four times the factor of `rad2deg` is below 360. -/
theorem rad2deg_factor_le : 4 * (8063664102031864 * 2 ^ 1027) ≤ 360 * UNIT := by decide!
/-- The value 720 is below `2^10`. -/
theorem d720_lt_pow : 720 * UNIT < 2 ^ 1084 := by decide!
/-- The value 720 is a multiple of the rounding unit of values between 512 and 1024. -/
theorem pow_1031_dvd_d720 : 2 ^ 1031 ∣ 720 * UNIT := ⟨45 * 2 ^ 47, by decide!⟩
/-- The value 720 is finite. -/
theorem d720_le_maxfin : 720 * UNIT ≤ MAXFIN := by decide!
/-- Half of the rounding unit of values between 512 and 1024. -/
theorem pow_1031_eq : (2 : Nat) ^ 1031 = 2 * 2 ^ 1030 := by decide!

/-- A signed rounding that does not overflow is finite, with the rounded magnitude. -/
theorem signedRound_fin (negative : Bool) (N D : Nat) (h : roundRat N D ≤ MAXFIN) :
    ∃ p : Int, signedRound negative N D = Double.fin p ∧ p.natAbs = roundRat N D := by
  unfold signedRound
  rw [if_neg (not_lt.mpr h)]
  cases negative
  · exact ⟨_, rfl, by simp⟩
  · exact ⟨_, rfl, by simp⟩

/-- The product of two doubles of magnitude at most 1 is one. -/
theorem mul_le_one (a b : Int) (ha : a.natAbs ≤ UNIT) (hb : b.natAbs ≤ UNIT) :
    ∃ p : Int, (Double.fin a).mul (Double.fin b) = Double.fin p ∧ p.natAbs ≤ UNIT ∧
      roundNat p.natAbs = p.natAbs := by
  have hN : a.natAbs * b.natAbs ≤ 2 ^ 1074 * UNIT := Nat.mul_le_mul ha hb
  have hr := roundRat_le_pow (a.natAbs * b.natAbs) UNIT 1074 UNIT_pos hN
  obtain ⟨p, hp, hpa⟩ := signedRound_fin (decide (a < 0) != decide (b < 0))
    (a.natAbs * b.natAbs) UNIT (le_trans hr UNIT_le_maxfin)
  refine ⟨p, hp, ?_, ?_⟩
  · rw [hpa]; exact hr
  · rw [hpa]; exact roundNat_roundRat _ _

/-- Multiplication of finite doubles is commutative. -/
theorem mul_fin_comm (a b : Int) :
    (Double.fin a).mul (Double.fin b) = (Double.fin b).mul (Double.fin a) := by
  simp only [Double.mul]
  rw [Nat.mul_comm a.natAbs]
  cases decide (a < 0) <;> cases decide (b < 0) <;> rfl

/-- Multiplying a double by 1 changes nothing. -/
theorem mul_one_fin (p : Int) (hrep : roundNat p.natAbs = p.natAbs) (hmax : p.natAbs ≤ MAXFIN) :
    (Double.fin p).mul d1 = Double.fin p := by
  have hU : ¬ ((UNIT : Int) < 0) := by
    have := UNIT_pos
    omega
  have hUa : ((UNIT : Nat) : Int).natAbs = UNIT := Int.natAbs_ofNat _
  simp only [Double.mul, d1, signedRound, hUa, decide_eq_false hU, Bool.bne_false]
  rw [roundRat_mul_right _ _ UNIT_pos, hrep, if_neg (not_lt.mpr hmax)]
  by_cases h : p < 0
  · rw [decide_eq_true h, if_pos rfl]
    congr 1
    omega
  · rw [decide_eq_false h, if_neg (by simp)]
    congr 1
    omega

/-- Zero times a finite double is zero. -/
theorem zero_mul_fin (c : Int) : d0.mul (Double.fin c) = d0 := by
  have h0 : roundRat 0 UNIT = 0 := by decide!
  simp only [Double.mul, d0, signedRound, Int.natAbs_zero, Nat.zero_mul, h0]
  rw [if_neg (by omega)]
  split <;> rfl

/-- A double minus itself is zero. -/
theorem sub_self_fin (p : Int) : (Double.fin p).sub (Double.fin p) = d0 := by
  simp only [Double.sub, Double.neg, Double.add, add_neg_cancel]
  decide

/-- A finite rounded value is a double. -/
theorem roundInt_fin (K p : Int) (h : roundInt K = Double.fin p) :
    (Double.fin p).representable := by
  unfold roundInt at h
  split at h
  · exact absurd h (by simp)
  · rename_i hle
    simp only [Double.fin.injEq] at h
    have hp : p.natAbs = roundNat K.natAbs := by
      rw [← h, Int.natAbs_mul, Int.natAbs_ofNat]
      rcases lt_trichotomy K 0 with hk | hk | hk
      · rw [Int.sign_eq_neg_one_of_neg hk]
        simp
      · rw [hk]
        simp [roundNat_zero]
      · rw [Int.sign_eq_one_of_pos hk]
        simp
    exact ⟨by rw [hp]; exact roundNat_idem _, by rw [hp]; exact not_lt.mp hle⟩

/-- The function `deg2rad` of a finite double is finite. -/
theorem deg2rad_fin (k : Int) (h : k.natAbs ≤ MAXFIN) :
    ∃ p : Int, deg2rad (Double.fin k) = Double.fin p ∧ (Double.fin p).representable := by
  unfold deg2rad
  rw [deg2rad_factor]
  simp only [Double.mul]
  have hc : ((5030569068109113 * 2 ^ 1016 : Int)).natAbs = 5030569068109113 * 2 ^ 1016 := by
    decide!
  rw [hc]
  have hN : k.natAbs * (5030569068109113 * 2 ^ 1016) ≤ MAXFIN * UNIT :=
    Nat.mul_le_mul h deg2rad_factor_le
  have hq : k.natAbs * (5030569068109113 * 2 ^ 1016) / UNIT < 2 ^ 2098 := by
    have : k.natAbs * (5030569068109113 * 2 ^ 1016) / UNIT ≤ MAXFIN := by
      rw [Nat.div_le_iff_le_mul_add_pred UNIT_pos]
      have e : MAXFIN * UNIT = UNIT * MAXFIN := Nat.mul_comm _ _
      generalize k.natAbs * (5030569068109113 * 2 ^ 1016) = N at *
      generalize MAXFIN * UNIT = A at *
      omega
    exact lt_of_le_of_lt this maxfin_lt_pow
  have hb := bitLen_le (k.natAbs * (5030569068109113 * 2 ^ 1016) / UNIT)
    (k.natAbs * (5030569068109113 * 2 ^ 1016) / UNIT) 2098 hq
  have hr := roundRat_le _ UNIT MAXFIN UNIT_pos hN
    (Nat.dvd_trans (Nat.pow_dvd_pow 2 (by omega)) pow_2045_dvd_maxfin)
  obtain ⟨p, hp, hpa⟩ := signedRound_fin _ _ _ hr
  exact ⟨p, hp, by rw [hpa]; exact roundNat_roundRat _ _, by rw [hpa]; exact hr⟩

/-- The function `deg2rad` of zero is zero. -/
theorem deg2rad_zero : deg2rad d0 = d0 := by decide!

/-- The difference of two doubles of magnitude at most 1 is finite. -/
theorem sub_fin_small (a b : Int) (ha : a.natAbs ≤ UNIT) (hb : b.natAbs ≤ UNIT) :
    ∃ p : Int, (Double.fin a).sub (Double.fin b) = Double.fin p ∧
      (Double.fin p).representable := by
  simp only [Double.sub, Double.neg, Double.add]
  have hK : (a + -b).natAbs ≤ 2 ^ 1075 := by
    have e : (2 : Nat) ^ 1075 = UNIT + UNIT := by decide!
    rw [e]
    generalize UNIT = U at *
    omega
  have hb2 := bitLen_le (a + -b).natAbs (a + -b).natAbs 1076 (lt_of_le_of_lt hK (by decide!))
  have hr := roundNat_le _ (2 ^ 1075) (Nat.pow_dvd_pow 2 (by omega)) hK
  have hfin : ∃ p, roundInt (a + -b) = Double.fin p := by
    unfold roundInt
    rw [if_neg (not_lt.mpr (le_trans hr (by decide!)))]
    exact ⟨_, rfl⟩
  obtain ⟨p, hp⟩ := hfin
  exact ⟨p, hp, roundInt_fin _ _ hp⟩

/-- The function `rad2deg` of a double of magnitude at most 4 is between -360 and 360. -/
theorem rad2deg_bound (t : Int) (h : t.natAbs ≤ 4 * UNIT) :
    ∃ d : Int, rad2deg (Double.fin t) = Double.fin d ∧ d.natAbs ≤ 360 * UNIT := by
  unfold rad2deg
  rw [rad2deg_factor]
  simp only [Double.mul]
  have hc : ((8063664102031864 * 2 ^ 1027 : Int)).natAbs = 8063664102031864 * 2 ^ 1027 := by
    decide!
  rw [hc]
  have hN : t.natAbs * (8063664102031864 * 2 ^ 1027) ≤ 360 * UNIT * UNIT := by
    calc t.natAbs * (8063664102031864 * 2 ^ 1027)
        ≤ 4 * UNIT * (8063664102031864 * 2 ^ 1027) := Nat.mul_le_mul_right _ h
      _ = UNIT * (4 * (8063664102031864 * 2 ^ 1027)) := by ring
      _ ≤ UNIT * (360 * UNIT) := Nat.mul_le_mul_left _ rad2deg_factor_le
      _ = 360 * UNIT * UNIT := by ring
  have hq : t.natAbs * (8063664102031864 * 2 ^ 1027) / UNIT < 2 ^ 1083 := by
    have : t.natAbs * (8063664102031864 * 2 ^ 1027) / UNIT ≤ 360 * UNIT := by
      rw [Nat.div_le_iff_le_mul_add_pred UNIT_pos]
      have e : 360 * UNIT * UNIT = UNIT * (360 * UNIT) := Nat.mul_comm _ _
      generalize t.natAbs * (8063664102031864 * 2 ^ 1027) = N at *
      generalize 360 * UNIT * UNIT = A at *
      generalize UNIT * (360 * UNIT) = B at *
      omega
    exact lt_of_le_of_lt this d360_lt_pow
  have hb := bitLen_le (t.natAbs * (8063664102031864 * 2 ^ 1027) / UNIT)
    (t.natAbs * (8063664102031864 * 2 ^ 1027) / UNIT) 1083 hq
  have hr := roundRat_le _ UNIT (360 * UNIT) UNIT_pos hN
    (Nat.dvd_trans (Nat.pow_dvd_pow 2 (by omega)) pow_1030_dvd_d360)
  obtain ⟨p, hp, hpa⟩ := signedRound_fin _ _ _ (le_trans hr d360_le_maxfin)
  exact ⟨p, hp, by rw [hpa]; exact hr⟩

/-- One rounding of an exact value between 0 and 720. -/
theorem roundInt_upto720 (K : Int) (h0 : 0 ≤ K) (h1 : K ≤ 720 * (UNIT : Int)) :
    ∃ y : Int, roundInt K = Double.fin y ∧ 0 ≤ y ∧ y ≤ 720 * (UNIT : Int) ∧
      |y - K| ≤ 2 ^ 1030 := by
  obtain ⟨n, rfl⟩ := Int.eq_ofNat_of_zero_le h0
  have hn : n ≤ 720 * UNIT := by
    have : ((n : Nat) : Int) ≤ ((720 * UNIT : Nat) : Int) := by
      rw [Nat.cast_mul]; exact h1
    exact Int.ofNat_le.mp this
  have hb : bitLen n n ≤ 1084 := bitLen_le n n 1084 (lt_of_le_of_lt hn d720_lt_pow)
  have hj : bitLen n n - 53 ≤ 1031 := by omega
  have hdvd : 2 ^ (bitLen n n - 53) ∣ 720 * UNIT :=
    Nat.dvd_trans (Nat.pow_dvd_pow 2 hj) pow_1031_dvd_d720
  have hle := roundNat_le n (720 * UNIT) hdvd hn
  have herr := roundNat_error n
  have hp : 2 ^ (bitLen n n - 53) ≤ 2 ^ 1031 := Nat.pow_le_pow_right (by decide) hj
  refine ⟨(roundNat n : Int), roundInt_natCast n (le_trans hle d720_le_maxfin),
    Int.ofNat_nonneg _, ?_, ?_⟩
  · have : ((roundNat n : Nat) : Int) ≤ ((720 * UNIT : Nat) : Int) := Int.ofNat_le.mpr hle
    rw [Nat.cast_mul] at this
    exact this
  · clear hdvd hle hn h1 h0 hb hj
    have f3 := pow_1031_eq
    rw [abs_le]
    generalize roundNat n = m at *
    generalize 2 ^ (bitLen n n - 53) = p at *
    have : ((2 : Int) ^ 1030) = ((2 ^ 1030 : Nat) : Int) := by norm_cast
    rw [this]
    generalize (2 : Nat) ^ 1030 = e at *
    generalize (2 : Nat) ^ 1031 = e2 at *
    omega

/-- The function `lround` on a double between 0 and 360: the nearest integer, which is
between 0 and 360. -/
theorem lround_upto360 (unspecified : Int) (b : Int) (h0 : 0 ≤ b) (h1 : b < 360 * (UNIT : Int)) :
    ∃ r : Int, lround unspecified (Double.fin b) = r ∧ 0 ≤ r ∧ r ≤ 360 ∧
      2 * |r * (UNIT : Int) - b| ≤ (UNIT : Int) ∧
      (2 * |r * (UNIT : Int) - b| = (UNIT : Int) → b < r * (UNIT : Int)) := by
  obtain ⟨n, rfl⟩ := Int.eq_ofNat_of_zero_le h0
  have hU := UNIT_pos
  have hn : n < 360 * UNIT := by
    have : ((n : Nat) : Int) < ((360 * UNIT : Nat) : Int) := by
      rw [Nat.cast_mul]; exact h1
    exact Int.ofNat_lt.mp this
  have hdm := Nat.div_add_mod (2 * n + UNIT) (2 * UNIT)
  have hlt := Nat.mod_lt (2 * n + UNIT) (show 0 < 2 * UNIT by omega)
  have hq : (2 * n + UNIT) / (2 * UNIT) ≤ 360 := by
    rw [Nat.div_le_iff_le_mul_add_pred (by omega)]
    generalize UNIT = U at *
    omega
  have hsign : (n : Int).sign * (((2 * (n : Int).natAbs + UNIT) / (2 * UNIT) : Nat) : Int) =
      (((2 * n + UNIT) / (2 * UNIT) : Nat) : Int) := by
    rw [Int.natAbs_ofNat]
    rcases Nat.eq_zero_or_pos n with hz | hpos
    · subst hz
      have : (2 * 0 + UNIT) / (2 * UNIT) = 0 := Nat.div_eq_of_lt (by omega)
      rw [this]
      simp
    · rw [Int.sign_eq_one_of_pos (Int.ofNat_lt.mpr hpos), one_mul]
  have hlr : lround unspecified (Double.fin (n : Int)) =
      (((2 * n + UNIT) / (2 * UNIT) : Nat) : Int) := by
    have hle : (((2 * n + UNIT) / (2 * UNIT) : Nat) : Int) ≤ 360 := by omega
    simp only [lround]
    split
    · rename_i hc
      rw [hsign] at hc
      have hq0 : (0 : Int) ≤ (((2 * n + UNIT) / (2 * UNIT) : Nat) : Int) := Int.ofNat_nonneg _
      rcases hc with hc | hc
      · exact absurd (lt_of_le_of_lt hq0 hc) (by norm_num)
      · exact absurd (le_trans hc hle) (by norm_num)
    · exact hsign
  refine ⟨(((2 * n + UNIT) / (2 * UNIT) : Nat) : Int), hlr, Int.ofNat_nonneg _, by omega, ?_, ?_⟩
  · generalize (2 * n + UNIT) / (2 * UNIT) = q at *
    generalize (2 * n + UNIT) % (2 * UNIT) = r at *
    have e : 2 * UNIT * q = 2 * (q * UNIT) := by ring
    rw [e] at hdm
    have hc : ((q * UNIT : Nat) : Int) = (q : Int) * (UNIT : Int) := Nat.cast_mul _ _
    generalize q * UNIT = Q at *
    rw [← hc]
    generalize UNIT = U at *
    rcases abs_cases ((Q : Int) - (n : Int)) with ⟨ha, _⟩ | ⟨ha, _⟩
    · rw [ha]; omega
    · rw [ha]; omega
  · intro heq
    generalize (2 * n + UNIT) / (2 * UNIT) = q at *
    generalize (2 * n + UNIT) % (2 * UNIT) = r at *
    have e : 2 * UNIT * q = 2 * (q * UNIT) := by ring
    rw [e] at hdm
    have hc : ((q * UNIT : Nat) : Int) = (q : Int) * (UNIT : Int) := Nat.cast_mul _ _
    generalize q * UNIT = Q at *
    rw [← hc] at heq ⊢
    generalize UNIT = U at *
    rcases abs_cases ((Q : Int) - (n : Int)) with ⟨ha, _⟩ | ⟨ha, _⟩
    · rw [ha] at heq; omega
    · rw [ha] at heq; omega

/-- The conversion to `int` keeps a value between 0 and 360. -/
theorem toInt_small (r : Int) (h0 : 0 ≤ r) (h1 : r ≤ 360) : toInt r = r := by
  unfold toInt
  omega


/-- A product with a NaN is a NaN. -/
theorem mul_nan (x : Double) : x.mul Double.nan = Double.nan := by
  cases x <;> rfl

/-- A product of a NaN is a NaN. -/
theorem nan_mul (x : Double) : Double.nan.mul x = Double.nan := by
  cases x <;> rfl

/-- A difference with a NaN is a NaN. -/
theorem sub_nan (x : Double) : x.sub Double.nan = Double.nan := by
  cases x <;> rfl

/-- The remainder of a double between 0 and 720 by 360. -/
theorem fmod_upto720 (s : Int) (h0 : 0 ≤ s) :
    ∃ brng : Int, fmod (Double.fin s) d360 = Double.fin brng ∧ 0 ≤ brng ∧
      brng < 360 * (UNIT : Int) ∧ ∃ m : Int, s - brng = m * (360 * (UNIT : Int)) := by
  have hU := unit_pos
  refine ⟨s % (360 * (UNIT : Int)), ?_, Int.emod_nonneg _ (ne_of_gt hU),
    Int.emod_lt_of_pos _ hU, s / (360 * (UNIT : Int)), ?_⟩
  · simp only [fmod, d360]
    rw [if_neg (ne_of_gt hU), Int.tmod_eq_emod h0 (le_of_lt hU)]
  · have := Int.emod_add_ediv s (360 * (UNIT : Int))
    linear_combination (-1 : Int) * this

/-- The heading that lines 34-36 compute from a finite `atan2` result of magnitude up to 4. -/
theorem heading_of_theta (unspecified : Int) (t : Int) (ht : t.natAbs ≤ 4 * UNIT) :
    ∃ d s brng r : Int,
      rad2deg (Double.fin t) = Double.fin d ∧
      (Double.fin d).add d360 = Double.fin s ∧ |s - (d + 360 * (UNIT : Int))| ≤ 2 ^ 1030 ∧
      fmod (Double.fin s) d360 = Double.fin brng ∧ 0 ≤ brng ∧ brng < 360 * (UNIT : Int) ∧
      (∃ m : Int, s - brng = m * (360 * (UNIT : Int))) ∧
      lround unspecified (Double.fin brng) = r ∧
      2 * |r * (UNIT : Int) - brng| ≤ (UNIT : Int) ∧
      (2 * |r * (UNIT : Int) - brng| = (UNIT : Int) → brng < r * (UNIT : Int)) ∧
      (toInt r).tmod 360 = (if r = 360 then 0 else r) ∧
      0 ≤ (toInt r).tmod 360 ∧ (toInt r).tmod 360 ≤ 359 := by
  obtain ⟨d, hd, hdb⟩ := rad2deg_bound t ht
  have hS : ((360 * UNIT : Nat) : Int) = 360 * (UNIT : Int) := cast_d360
  have hdb2 : ((d.natAbs : Nat) : Int) ≤ 360 * (UNIT : Int) := by
    rw [← hS]; exact Int.ofNat_le.mpr hdb
  obtain ⟨s, hs, hs0, -, herr⟩ := roundInt_upto720 (d + 360 * (UNIT : Int)) (by omega) (by omega)
  obtain ⟨brng, hb, hb0, hb1, hm⟩ := fmod_upto720 s hs0
  obtain ⟨r, hr, hr0, hr1, hr2, hr3⟩ := lround_upto360 unspecified brng hb0 hb1
  refine ⟨d, s, brng, r, hd, ?_, herr, hb, hb0, hb1, hm, hr, hr2, hr3, ?_, ?_, ?_⟩
  · simp only [Double.add, d360]
    exact hs
  · rw [toInt_small r hr0 hr1, Int.tmod_eq_emod hr0 (by decide)]
    split <;> omega
  · rw [toInt_small r hr0 hr1, Int.tmod_eq_emod hr0 (by decide)]
    omega
  · rw [toInt_small r hr0 hr1, Int.tmod_eq_emod hr0 (by decide)]
    omega

/-- C9 as amended: let the library's `sin` and `cos` return values of magnitude at most 1
at finite arguments, with `sin(0) = 0` and `cos(0) = 1`, and `atan2` a finite value of
magnitude at most 4 at finite arguments, every operation being rounded on its own. For all
finite doubles `lat1`, `lat2` and finite `lon1`, `lon2` whose difference `lon2 - lon1` is finite:
(1) whenever `bearing_deg` returns a result, `atan2(y, x)` is a finite `t`; its value in
degrees `d = rad2deg(t)` and the sum `s = d + 360.0` are finite, `s` within `2^-44` of
`d + 360`; `brng = fmod(s, 360.0)` satisfies `0 <= brng < 360` and differs from `s` by an
exact multiple of 360; `r = lround(brng)` is an integer nearest to `brng`, the one away from
zero at a tie; and `heading_deg` is `r`, with 360 replaced by 0, so `0 <= heading_deg <= 359`.
(2) `bearing_deg` returns no result when the two points are equal. (3) It returns a result
exactly when `x == 0.0 && y == 0.0` is false. -/
theorem bearing_deg_heading (sin cos sqrt : Double → Double) (atan2 : Double → Double → Double)
    (unspecified : Int)
    (hsin0 : sin d0 = d0) (hcos0 : cos d0 = d1)
    (hrange : ∀ k : Int, (Double.fin k).representable →
      ∃ s c : Int, sin (Double.fin k) = Double.fin s ∧
        cos (Double.fin k) = Double.fin c ∧ s.natAbs ≤ UNIT ∧ c.natAbs ≤ UNIT)
    (hatan2 : ∀ a b : Int, (Double.fin a).representable → (Double.fin b).representable →
      ∃ t : Int, atan2 (Double.fin a) (Double.fin b) = Double.fin t ∧ t.natAbs ≤ 4 * UNIT)
    (lat1 lon1 lat2 lon2 : Int)
    (h1 : (Double.fin lat1).representable) (h3 : (Double.fin lat2).representable)
    (hdl : ((Double.fin lon2).sub (Double.fin lon1)).isfinite = true) :
    (∀ res, bearing_deg sin cos sqrt atan2 unspecified (Double.fin lat1) (Double.fin lon1)
        (Double.fin lat2) (Double.fin lon2) = some res →
      ∃ t d s brng r : Int,
        atan2 ((sin (deg2rad ((Double.fin lon2).sub (Double.fin lon1)))).mul
            (cos (deg2rad (Double.fin lat2))))
          (((cos (deg2rad (Double.fin lat1))).mul (sin (deg2rad (Double.fin lat2)))).sub
            (((sin (deg2rad (Double.fin lat1))).mul (cos (deg2rad (Double.fin lat2)))).mul
              (cos (deg2rad ((Double.fin lon2).sub (Double.fin lon1)))))) = Double.fin t ∧
        rad2deg (Double.fin t) = Double.fin d ∧
        (Double.fin d).add d360 = Double.fin s ∧ |s - (d + 360 * (UNIT : Int))| ≤ 2 ^ 1030 ∧
        fmod (Double.fin s) d360 = Double.fin brng ∧ 0 ≤ brng ∧ brng < 360 * (UNIT : Int) ∧
        (∃ m : Int, s - brng = m * (360 * (UNIT : Int))) ∧
        lround unspecified (Double.fin brng) = r ∧
        2 * |r * (UNIT : Int) - brng| ≤ (UNIT : Int) ∧
        (2 * |r * (UNIT : Int) - brng| = (UNIT : Int) → brng < r * (UNIT : Int)) ∧
        res.heading_deg = (if r = 360 then 0 else r) ∧
        0 ≤ res.heading_deg ∧ res.heading_deg ≤ 359) ∧
    bearing_deg sin cos sqrt atan2 unspecified (Double.fin lat1) (Double.fin lon1)
      (Double.fin lat1) (Double.fin lon1) = none ∧
    (bearing_deg sin cos sqrt atan2 unspecified (Double.fin lat1) (Double.fin lon1)
        (Double.fin lat2) (Double.fin lon2) = none ↔
      ((((cos (deg2rad (Double.fin lat1))).mul (sin (deg2rad (Double.fin lat2)))).sub
          (((sin (deg2rad (Double.fin lat1))).mul (cos (deg2rad (Double.fin lat2)))).mul
            (cos (deg2rad ((Double.fin lon2).sub (Double.fin lon1)))))).isZero = true ∧
        ((sin (deg2rad ((Double.fin lon2).sub (Double.fin lon1)))).mul
          (cos (deg2rad (Double.fin lat2)))).isZero = true)) := by
  obtain ⟨p1, hp1, hp1r⟩ := deg2rad_fin lat1 h1.2
  obtain ⟨s1, c1, hs1, hc1, hs1b, hc1b⟩ := hrange p1 hp1r
  refine ⟨?_, ?_, ?_⟩
  rotate_left
  rotate_left
  · unfold bearing_deg
    simp only [Double.isfinite, Bool.not_true, Bool.or_self, Bool.false_eq_true, if_false]
    split
    · rename_i hc
      simp only [Bool.and_eq_true] at hc
      simp only [true_iff]
      exact hc
    · rename_i hc
      simp only [Bool.and_eq_true] at hc
      simp only [reduceCtorEq, false_iff]
      exact hc
  · intro res h
    obtain ⟨p2, hp2, hp2r⟩ := deg2rad_fin lat2 h3.2
    obtain ⟨s2, c2, hs2, hc2, hs2b, hc2b⟩ := hrange p2 hp2r
    obtain ⟨dl, hsub⟩ : ∃ dl : Int, (Double.fin lon2).sub (Double.fin lon1) = Double.fin dl := by
      cases hv : (Double.fin lon2).sub (Double.fin lon1) with
      | fin k => exact ⟨k, rfl⟩
      | inf b => rw [hv] at hdl; exact absurd hdl (by simp [Double.isfinite])
      | nan => rw [hv] at hdl; exact absurd hdl (by decide)
    have hdlmax : dl.natAbs ≤ MAXFIN := by
      simp only [Double.sub, Double.neg, Double.add] at hsub
      exact (roundInt_fin _ _ hsub).2
    obtain ⟨p3, hp3, hp3r⟩ := deg2rad_fin dl hdlmax
    obtain ⟨s3, c3, hs3, hc3, hs3b, hc3b⟩ := hrange p3 hp3r
    obtain ⟨yv, hy, hyb, hyr⟩ := mul_le_one s3 c2 hs3b hc2b
    obtain ⟨a, ha, hab, -⟩ := mul_le_one c1 s2 hc1b hs2b
    obtain ⟨b, hb, hbb, -⟩ := mul_le_one s1 c2 hs1b hc2b
    obtain ⟨c, hc, hcb, -⟩ := mul_le_one b c3 hbb hc3b
    obtain ⟨xv, hx, hxr⟩ := sub_fin_small a c hab hcb
    obtain ⟨t, ht, htb⟩ := hatan2 yv xv ⟨hyr, le_trans hyb UNIT_le_maxfin⟩ hxr
    obtain ⟨d, s, brng, r, e1, e2, e3, e4, e5, e6, e7, e8, e9, e10, e11, e12, e13⟩ :=
      heading_of_theta unspecified t htb
    have hyx : atan2 ((sin (deg2rad ((Double.fin lon2).sub (Double.fin lon1)))).mul
            (cos (deg2rad (Double.fin lat2))))
          (((cos (deg2rad (Double.fin lat1))).mul (sin (deg2rad (Double.fin lat2)))).sub
            (((sin (deg2rad (Double.fin lat1))).mul (cos (deg2rad (Double.fin lat2)))).mul
              (cos (deg2rad ((Double.fin lon2).sub (Double.fin lon1)))))) = Double.fin t := by
      rw [hsub, hp1, hp2, hp3, hs1, hc1, hs2, hc2, hs3, hc3, hy, ha, hb, hc, hx, ht]
    unfold bearing_deg at h
    simp only [Double.isfinite, Bool.not_true, Bool.or_self, Bool.false_eq_true, if_false] at h
    split at h
    · exact absurd h (by simp)
    · simp only [Option.some.injEq] at h
      refine ⟨t, d, s, brng, r, hyx, e1, e2, e3, e4, e5, e6, e7, e8, e9, e10, ?_, ?_, ?_⟩
      · rw [← h]
        simp only []
        rw [hyx, e1, e2, e4, e8]
        exact e11
      · rw [← h]
        simp only []
        rw [hyx, e1, e2, e4, e8]
        exact e12
      · rw [← h]
        simp only []
        rw [hyx, e1, e2, e4, e8]
        exact e13
  · obtain ⟨a, ha, hab, harep⟩ := mul_le_one c1 s1 hc1b hs1b
    have hx : ((cos (deg2rad (Double.fin lat1))).mul (sin (deg2rad (Double.fin lat1)))).sub
        (((sin (deg2rad (Double.fin lat1))).mul (cos (deg2rad (Double.fin lat1)))).mul
          (cos (deg2rad ((Double.fin lon1).sub (Double.fin lon1))))) = d0 := by
      rw [sub_self_fin, deg2rad_zero, hcos0, hp1, hs1, hc1, mul_fin_comm s1 c1, ha,
        mul_one_fin a harep (le_trans hab UNIT_le_maxfin), sub_self_fin]
    have hy : (sin (deg2rad ((Double.fin lon1).sub (Double.fin lon1)))).mul
        (cos (deg2rad (Double.fin lat1))) = d0 := by
      rw [sub_self_fin, deg2rad_zero, hsin0, hp1, hc1, zero_mul_fin]
    unfold bearing_deg
    simp only [Double.isfinite, Bool.not_true, Bool.or_self, Bool.false_eq_true, if_false]
    rw [hx, hy]
    rfl

/-- The difference of two finite doubles is not a NaN. -/
theorem sub_fin_ne_nan (a b : Int) : (Double.fin a).sub (Double.fin b) ≠ Double.nan := by
  simp only [Double.sub, Double.neg, Double.add, roundInt]
  split <;> simp

/-- The function `deg2rad` of an infinity is that infinity. -/
theorem deg2rad_inf (b : Bool) : deg2rad (Double.inf b) = Double.inf b := by
  cases b <;> decide!

/-- C9 fails as stated: `-DBL_MAX` and `DBL_MAX` are finite longitudes whose difference
overflows. When `sin` and `cos` of an infinity are NaN and `atan2` of NaNs is NaN, as C
specifies, `bearing_deg` returns a result for all finite inputs with an infinite
`lon2 - lon1`, although `atan2(y, x)` is NaN, and `heading_deg` is what `lround` yields for a
NaN, which C leaves unspecified: 0 for `LONG_MIN`, and -1 for -1. -/
theorem bearing_deg_overflow :
    (Double.fin (-(MAXFIN : Int))).representable ∧ (Double.fin (MAXFIN : Int)).representable ∧
    ((Double.fin (MAXFIN : Int)).sub (Double.fin (-(MAXFIN : Int)))).isfinite = false ∧
    (∀ (sin cos sqrt : Double → Double) (atan2 : Double → Double → Double) (unspecified : Int),
      (∀ b, sin (Double.inf b) = Double.nan) → (∀ b, cos (Double.inf b) = Double.nan) →
      atan2 Double.nan Double.nan = Double.nan →
      ∀ lat1 lon1 lat2 lon2 : Int,
      ((Double.fin lon2).sub (Double.fin lon1)).isfinite = false →
      atan2 ((sin (deg2rad ((Double.fin lon2).sub (Double.fin lon1)))).mul
            (cos (deg2rad (Double.fin lat2))))
          (((cos (deg2rad (Double.fin lat1))).mul (sin (deg2rad (Double.fin lat2)))).sub
            (((sin (deg2rad (Double.fin lat1))).mul (cos (deg2rad (Double.fin lat2)))).mul
              (cos (deg2rad ((Double.fin lon2).sub (Double.fin lon1)))))) = Double.nan ∧
      ∃ res, bearing_deg sin cos sqrt atan2 unspecified (Double.fin lat1) (Double.fin lon1)
          (Double.fin lat2) (Double.fin lon2) = some res ∧
        res.heading_deg = (toInt unspecified).tmod 360) ∧
    (toInt (-(2 ^ 63))).tmod 360 = 0 ∧ (toInt (-1)).tmod 360 = -1 := by
  refine ⟨⟨by decide!, by decide!⟩, ⟨by decide!, by decide!⟩, by decide!, ?_, by decide,
    by decide⟩
  intro sin cos sqrt atan2 unspecified hsin hcos hatan lat1 lon1 lat2 lon2 hinf
  obtain ⟨b, hsub⟩ : ∃ b, (Double.fin lon2).sub (Double.fin lon1) = Double.inf b := by
    cases hv : (Double.fin lon2).sub (Double.fin lon1) with
    | fin k => rw [hv] at hinf; exact absurd hinf (by simp [Double.isfinite])
    | inf b => exact ⟨b, rfl⟩
    | nan => exact absurd hv (sub_fin_ne_nan _ _)
  have hx : ((cos (deg2rad (Double.fin lat1))).mul (sin (deg2rad (Double.fin lat2)))).sub
      (((sin (deg2rad (Double.fin lat1))).mul (cos (deg2rad (Double.fin lat2)))).mul
        (cos (deg2rad ((Double.fin lon2).sub (Double.fin lon1))))) = Double.nan := by
    rw [hsub, deg2rad_inf, hcos, mul_nan, sub_nan]
  have hy : (sin (deg2rad ((Double.fin lon2).sub (Double.fin lon1)))).mul
      (cos (deg2rad (Double.fin lat2))) = Double.nan := by
    rw [hsub, deg2rad_inf, hsin, nan_mul]
  have hyx : atan2 ((sin (deg2rad ((Double.fin lon2).sub (Double.fin lon1)))).mul
        (cos (deg2rad (Double.fin lat2))))
      (((cos (deg2rad (Double.fin lat1))).mul (sin (deg2rad (Double.fin lat2)))).sub
        (((sin (deg2rad (Double.fin lat1))).mul (cos (deg2rad (Double.fin lat2)))).mul
          (cos (deg2rad ((Double.fin lon2).sub (Double.fin lon1)))))) = Double.nan := by
    rw [hx, hy]
    exact hatan
  refine ⟨hyx, ?_⟩
  unfold bearing_deg
  simp only [Double.isfinite, Bool.not_true, Bool.or_self, Bool.false_eq_true, if_false]
  rw [hx]
  simp only [Double.isZero, Bool.false_and, Bool.false_eq_true, if_false]
  refine ⟨_, rfl, ?_⟩
  simp only []
  rw [hx] at hyx
  have e1 : rad2deg Double.nan = Double.nan := nan_mul _
  rw [hyx, e1]
  rfl

/-- C9, sample: with the stand-ins for the library functions, the bearing from (0, 0) to
(10, 10) has a heading between 0 and 359, and from (10, 10) to itself there is no result. -/
theorem bearing_deg_heading_witness :
    (∃ res, bearing_deg sampleSin sampleCos sampleSqrt sampleAtan2 0 d0 d0
        (Double.fin (10 * (UNIT : Int))) (Double.fin (10 * (UNIT : Int))) = some res ∧
      res.heading_deg = 29) ∧
    bearing_deg sampleSin sampleCos sampleSqrt sampleAtan2 0 (Double.fin (10 * (UNIT : Int)))
      (Double.fin (10 * (UNIT : Int))) (Double.fin (10 * (UNIT : Int)))
      (Double.fin (10 * (UNIT : Int))) = none := by
  have hrange : ∀ k : Int, (Double.fin k).representable →
      ∃ s c : Int, sampleSin (Double.fin k) = Double.fin s ∧
        sampleCos (Double.fin k) = Double.fin c ∧ s.natAbs ≤ UNIT ∧ c.natAbs ≤ UNIT := by
    intro k _
    by_cases hk : k = 0
    · exact ⟨0, UNIT, by simp [sampleSin, hk, d0], by simp [sampleCos, hk, d1], by decide,
        by simp⟩
    · exact ⟨2 ^ 1073, 2 ^ 1073, by simp [sampleSin, hk], by simp [sampleCos, hk], by decide!,
        by decide!⟩
  have hatan2 : ∀ a b : Int, (Double.fin a).representable → (Double.fin b).representable →
      ∃ t : Int, sampleAtan2 (Double.fin a) (Double.fin b) = Double.fin t ∧
        t.natAbs ≤ 4 * UNIT :=
    fun _ _ _ _ => ⟨2 ^ 1073, rfl, by decide!⟩
  have hrep0 : (Double.fin 0).representable := ⟨by decide, by decide⟩
  have hrep10 : (Double.fin (10 * (UNIT : Int))).representable := ⟨by decide!, by decide!⟩
  constructor
  · have h := (bearing_deg_heading sampleSin sampleCos sampleSqrt sampleAtan2 0 rfl rfl
      hrange hatan2 0 0 (10 * (UNIT : Int)) (10 * (UNIT : Int)) hrep0 hrep10
      (by decide!)).1
    have hs : (bearing_deg sampleSin sampleCos sampleSqrt sampleAtan2 0 d0 d0
        (Double.fin (10 * (UNIT : Int))) (Double.fin (10 * (UNIT : Int)))).isSome = true := by
      decide!
    obtain ⟨res, hres⟩ := Option.isSome_iff_exists.mp hs
    refine ⟨res, hres, ?_⟩
    have hv : (bearing_deg sampleSin sampleCos sampleSqrt sampleAtan2 0 d0 d0
        (Double.fin (10 * (UNIT : Int))) (Double.fin (10 * (UNIT : Int)))).map
          BearingResult.heading_deg = some 29 := by decide!
    rw [hres] at hv
    simpa using hv
  · exact (bearing_deg_heading sampleSin sampleCos sampleSqrt sampleAtan2 0 rfl rfl
      hrange hatan2 (10 * (UNIT : Int)) (10 * (UNIT : Int)) (10 * (UNIT : Int))
      (10 * (UNIT : Int)) hrep10 hrep10 (by decide!)).2.1

end Fsd
